import Mathlib
set_option maxRecDepth 1024

/-!
Shallow embedding of the ring-buffer core of CXXAudioUtilities
(SFBRingBuffer.cpp, SFBAudioRingBuffer.cpp, SFBCARingBuffer.cpp) together
with proofs about the embedded operations.

Machine integers are modelled as natural numbers with explicit wraparound
modulo 2^32 at the points where the C code performs unsigned 32-bit
arithmetic.  Byte stores (malloc allocations and caller-supplied buffers)
are modelled as total functions from byte offset to byte value; memcpy and
memset become pointwise functional updates.  Pointers into a store are
modelled as byte offsets from the base of that store.
-/

/-- Modulus of unsigned 32-bit arithmetic. -/
def U32 : Nat := 4294967296

/-- Reduction of a natural number into unsigned 32-bit range. -/
def u32 (x : Nat) : Nat := x % U32

/-- Unsigned 32-bit subtraction with two-complement wraparound, valid for
arguments below 2^32. -/
def u32sub (a b : Nat) : Nat := (a + U32 - b) % U32

/-- Byte-level model of the C library call
memcpy(dstBase + dstOff, srcBase + srcOff, len) acting on flat byte stores. -/
def memcpy (dst : Nat → Nat) (dstOff : Nat) (src : Nat → Nat) (srcOff len : Nat) : Nat → Nat :=
  fun p => if dstOff ≤ p ∧ p < dstOff + len then src (srcOff + (p - dstOff)) else dst p

/-- Byte-level model of memset(base + off, 0, len) on a flat byte store. -/
def memset0 (buf : Nat → Nat) (off len : Nat) : Nat → Nat :=
  fun p => if off ≤ p ∧ p < off + len then 0 else buf p

/-- Count of leading zeros of a nonzero unsigned 32-bit value, as computed by
the builtin used in the sources. -/
def clz32 (x : Nat) : Nat := 32 - Nat.size x

/-- NextPowerOfTwo from SFBRingBuffer.cpp (the identical static helper also
appears in SFBAudioRingBuffer.cpp and SFBCARingBuffer.cpp): the value
1 shifted left by (32 - clz(x - 1)), cast to uint32_t. -/
def NextPowerOfTwo (x : Nat) : Nat := u32 (1 <<< (32 - clz32 (x - 1)))

/-- SFB::RingBuffer (SFBRingBuffer.cpp).  The malloc-owned storage is the
byte store mBuffer; the two cursors are unsigned 32-bit values. -/
structure RingBuffer where
  mCapacityBytes : Nat
  mCapacityBytesMask : Nat
  mBuffer : Nat → Nat
  mReadPosition : Nat
  mWritePosition : Nat

/-- SFB::RingBuffer::Allocate.  The malloc call is modelled as succeeding;
the claim about allocation is conditioned on that success.  The malloc
contents are indeterminate and modelled as the all-zero store; no claim
depends on the initial contents of the byte ring buffer. -/
def RingBuffer.Allocate (capacityBytes : Nat) : Option RingBuffer :=
  if capacityBytes < 2 ∨ capacityBytes > 2 ^ 31 then none
  else
    let cap := NextPowerOfTwo capacityBytes
    some { mCapacityBytes := cap, mCapacityBytesMask := cap - 1,
           mBuffer := fun _ => 0, mReadPosition := 0, mWritePosition := 0 }

/-- SFB::RingBuffer::Reset. -/
def RingBuffer.Reset (rb : RingBuffer) : RingBuffer :=
  { rb with mReadPosition := 0, mWritePosition := 0 }

/-- SFB::RingBuffer::BytesAvailableToRead. -/
def RingBuffer.BytesAvailableToRead (rb : RingBuffer) : Nat :=
  if rb.mWritePosition > rb.mReadPosition then rb.mWritePosition - rb.mReadPosition
  else (u32 (u32sub rb.mWritePosition rb.mReadPosition + rb.mCapacityBytes)) &&& rb.mCapacityBytesMask

/-- SFB::RingBuffer::BytesAvailableToWrite. -/
def RingBuffer.BytesAvailableToWrite (rb : RingBuffer) : Nat :=
  if rb.mWritePosition > rb.mReadPosition then
    ((u32 (u32sub rb.mReadPosition rb.mWritePosition + rb.mCapacityBytes)) &&& rb.mCapacityBytesMask) - 1
  else if rb.mWritePosition < rb.mReadPosition then rb.mReadPosition - rb.mWritePosition - 1
  else rb.mCapacityBytes - 1

/-- SFB::RingBuffer::Read.  The destination pointer is modelled as a byte
store; the result is the returned byte count, the updated destination store
and the updated ring buffer.  The null-destination early return is not
modelled because stores are total. -/
def RingBuffer.Read (rb : RingBuffer) (destinationBuffer : Nat → Nat) (byteCount : Nat)
    ( allowPartial : Bool) : Nat × (Nat → Nat) × RingBuffer :=
  if byteCount = 0 then (0, destinationBuffer, rb)
  else
    let writePosition := rb.mWritePosition
    let readPosition := rb.mReadPosition
    let bytesAvailable :=
      if writePosition > readPosition then writePosition - readPosition
      else (u32 (u32sub writePosition readPosition + rb.mCapacityBytes)) &&& rb.mCapacityBytesMask
    if bytesAvailable = 0 ∨ (bytesAvailable < byteCount ∧ allowPartial = false) then
      (0, destinationBuffer, rb)
    else
      let bytesToRead := min bytesAvailable byteCount
      let dst :=
        if readPosition + bytesToRead > rb.mCapacityBytes then
          let bytesAfterReadPointer := rb.mCapacityBytes - readPosition
          memcpy (memcpy destinationBuffer 0 rb.mBuffer readPosition bytesAfterReadPointer)
            bytesAfterReadPointer rb.mBuffer 0 (bytesToRead - bytesAfterReadPointer)
        else memcpy destinationBuffer 0 rb.mBuffer readPosition bytesToRead
      (bytesToRead, dst,
        { rb with mReadPosition := (u32 (readPosition + bytesToRead)) &&& rb.mCapacityBytesMask })

/-- SFB::RingBuffer::Peek: identical to Read except that the read cursor is
not advanced and the ring buffer is unchanged. -/
def RingBuffer.Peek (rb : RingBuffer) (destinationBuffer : Nat → Nat) (byteCount : Nat)
    ( allowPartial : Bool) : Nat × (Nat → Nat) :=
  if byteCount = 0 then (0, destinationBuffer)
  else
    let writePosition := rb.mWritePosition
    let readPosition := rb.mReadPosition
    let bytesAvailable :=
      if writePosition > readPosition then writePosition - readPosition
      else (u32 (u32sub writePosition readPosition + rb.mCapacityBytes)) &&& rb.mCapacityBytesMask
    if bytesAvailable = 0 ∨ (bytesAvailable < byteCount ∧ allowPartial = false) then
      (0, destinationBuffer)
    else
      let bytesToRead := min bytesAvailable byteCount
      let dst :=
        if readPosition + bytesToRead > rb.mCapacityBytes then
          let bytesAfterReadPointer := rb.mCapacityBytes - readPosition
          memcpy (memcpy destinationBuffer 0 rb.mBuffer readPosition bytesAfterReadPointer)
            bytesAfterReadPointer rb.mBuffer 0 (bytesToRead - bytesAfterReadPointer)
        else memcpy destinationBuffer 0 rb.mBuffer readPosition bytesToRead
      (bytesToRead, dst)

/-- SFB::RingBuffer::Write.  The source pointer is modelled as a byte store;
the result is the returned byte count and the updated ring buffer. -/
def RingBuffer.Write (rb : RingBuffer) (sourceBuffer : Nat → Nat) (byteCount : Nat)
    ( allowPartial : Bool) : Nat × RingBuffer :=
  if byteCount = 0 then (0, rb)
  else
    let writePosition := rb.mWritePosition
    let readPosition := rb.mReadPosition
    let bytesAvailable :=
      if writePosition > readPosition then
        ((u32 (u32sub readPosition writePosition + rb.mCapacityBytes)) &&& rb.mCapacityBytesMask) - 1
      else if writePosition < readPosition then readPosition - writePosition - 1
      else rb.mCapacityBytes - 1
    if bytesAvailable = 0 ∨ (bytesAvailable < byteCount ∧ allowPartial = false) then (0, rb)
    else
      let bytesToWrite := min bytesAvailable byteCount
      let buf :=
        if writePosition + bytesToWrite > rb.mCapacityBytes then
          let bytesAfterWritePointer := rb.mCapacityBytes - writePosition
          memcpy (memcpy rb.mBuffer writePosition sourceBuffer 0 bytesAfterWritePointer)
            0 sourceBuffer bytesAfterWritePointer (bytesToWrite - bytesAfterWritePointer)
        else memcpy rb.mBuffer writePosition sourceBuffer 0 bytesToWrite
      (bytesToWrite,
        { rb with mBuffer := buf,
                  mWritePosition := (u32 (writePosition + bytesToWrite)) &&& rb.mCapacityBytesMask })

/-- SFB::RingBuffer::AdvanceReadPosition. -/
def RingBuffer.AdvanceReadPosition (rb : RingBuffer) (byteCount : Nat) : RingBuffer :=
  { rb with mReadPosition := (u32 (rb.mReadPosition + byteCount)) &&& rb.mCapacityBytesMask }

/-- SFB::RingBuffer::AdvanceWritePosition. -/
def RingBuffer.AdvanceWritePosition (rb : RingBuffer) (byteCount : Nat) : RingBuffer :=
  { rb with mWritePosition := (u32 (rb.mWritePosition + byteCount)) &&& rb.mCapacityBytesMask }

/-- One contiguous span of a buffer pair: the pointer is modelled as the byte
offset from the base of the storage allocation. -/
structure BufferSegment where
  offset : Nat
  length : Nat
deriving DecidableEq

/-- SFB::RingBuffer::ReadVector.  The first span starts at the read position;
an empty default-constructed span is modelled as offset 0, length 0.  Note
the source masks the wrapped second length with mCapacityBytes, not with
mCapacityBytesMask. -/
def RingBuffer.ReadVector (rb : RingBuffer) : BufferSegment × BufferSegment :=
  let writePosition := rb.mWritePosition
  let readPosition := rb.mReadPosition
  let bytesAvailable :=
    if writePosition > readPosition then writePosition - readPosition
    else (u32 (u32sub writePosition readPosition + rb.mCapacityBytes)) &&& rb.mCapacityBytesMask
  let endOfRead := readPosition + bytesAvailable
  if endOfRead > rb.mCapacityBytes then
    (⟨readPosition, rb.mCapacityBytes - readPosition⟩, ⟨0, endOfRead &&& rb.mCapacityBytes⟩)
  else
    (⟨readPosition, bytesAvailable⟩, ⟨0, 0⟩)

/-- SFB::RingBuffer::WriteVector, with the same remark on the second length
as for ReadVector. -/
def RingBuffer.WriteVector (rb : RingBuffer) : BufferSegment × BufferSegment :=
  let writePosition := rb.mWritePosition
  let readPosition := rb.mReadPosition
  let bytesAvailable :=
    if writePosition > readPosition then
      ((u32 (u32sub readPosition writePosition + rb.mCapacityBytes)) &&& rb.mCapacityBytesMask) - 1
    else if writePosition < readPosition then readPosition - writePosition - 1
    else rb.mCapacityBytes - 1
  let endOfWrite := writePosition + bytesAvailable
  if endOfWrite > rb.mCapacityBytes then
    (⟨writePosition, rb.mCapacityBytes - writePosition⟩, ⟨0, endOfWrite &&& rb.mCapacityBytes⟩)
  else
    (⟨writePosition, bytesAvailable⟩, ⟨0, 0⟩)

/-- Well-formedness of a byte ring buffer: the power-of-two capacity in the
range produced by Allocate, a consistent mask field, and cursors strictly
below the capacity. -/
def RingBuffer.WF (rb : RingBuffer) : Prop :=
  (∃ k, k ≤ 31 ∧ rb.mCapacityBytes = 2 ^ k) ∧
  rb.mCapacityBytesMask = rb.mCapacityBytes - 1 ∧
  2 ≤ rb.mCapacityBytes ∧
  rb.mReadPosition < rb.mCapacityBytes ∧
  rb.mWritePosition < rb.mCapacityBytes

/-- One client call on a byte ring buffer, for reachability statements.  A
read call carries only the count and the partial flag (the destination store
does not influence the ring-buffer state); a write call carries its source
store as well. -/
inductive RBOp where
  | read (byteCount : Nat) ( allowPartial : Bool)
  | write (src : Nat → Nat) (byteCount : Nat) ( allowPartial : Bool)

/-- State reached by one call of the given operation. -/
def applyRBOp (rb : RingBuffer) : RBOp → RingBuffer
  | .read n p => (rb.Read (fun _ => 0) n p).2.2
  | .write s n p => (rb.Write s n p).2

/-- State reached from rb by a sequence of interleaved Read and Write calls. -/
def applyRBOps (rb : RingBuffer) (ops : List RBOp) : RingBuffer :=
  ops.foldl applyRBOp rb

/-- CoreAudio constant kAudioFormatFlagIsNonInterleaved (1 shifted left 5). -/
def kAudioFormatFlagIsNonInterleaved : Nat := 32

/-- The fields of CAStreamBasicDescription (SFBCAStreamBasicDescription.hpp)
used by the ring buffers: format flags, bytes per frame and channel count. -/
structure CAStreamBasicDescription where
  mFormatFlags : Nat
  mBytesPerFrame : Nat
  mChannelsPerFrame : Nat

/-- CAStreamBasicDescription::IsInterleaved: true when
kAudioFormatFlagIsNonInterleaved is clear. -/
def CAStreamBasicDescription.IsInterleaved (f : CAStreamBasicDescription) : Bool :=
  (f.mFormatFlags &&& kAudioFormatFlagIsNonInterleaved) == 0

/-- CAStreamBasicDescription::ChannelStreamCount: 1 when interleaved,
otherwise the channel count. -/
def CAStreamBasicDescription.ChannelStreamCount (f : CAStreamBasicDescription) : Nat :=
  if f.IsInterleaved then 1 else f.mChannelsPerFrame

/-- CoreAudio AudioBuffer: the data pointer is modelled as a byte store. -/
structure AudioBuffer where
  mDataByteSize : Nat
  mData : Nat → Nat

/-- CoreAudio AudioBufferList: the variable-length buffer array is modelled
as a total function read only below mNumberBuffers. -/
structure AudioBufferList where
  mNumberBuffers : Nat
  mBuffers : Nat → AudioBuffer

/-- StoreABL (static helper in SFBAudioRingBuffer.cpp and, identically, in
SFBCARingBuffer.cpp): per channel of the buffer list, copy
min(byteCount, mDataByteSize - srcOffset) bytes from the channel of the
buffer list at srcOffset into the channel region at dstOffset.  The uint32_t
subtraction wraps, as in the source. -/
def StoreABL (buffers : Nat → Nat → Nat) (dstOffset : Nat) (bufferList : AudioBufferList)
    (srcOffset byteCount : Nat) : Nat → Nat → Nat :=
  fun i p =>
    if i < bufferList.mNumberBuffers ∧ dstOffset ≤ p ∧
        p < dstOffset + min byteCount (u32sub (bufferList.mBuffers i).mDataByteSize srcOffset) then
      (bufferList.mBuffers i).mData (srcOffset + (p - dstOffset))
    else buffers i p

/-- FetchABL (static helper in SFBAudioRingBuffer.cpp and SFBCARingBuffer.cpp):
per channel of the buffer list, copy min(byteCount, mDataByteSize - dstOffset)
bytes from the channel region at srcOffset into the buffer list at dstOffset. -/
def FetchABL (bufferList : AudioBufferList) (dstOffset : Nat) (buffers : Nat → Nat → Nat)
    (srcOffset byteCount : Nat) : AudioBufferList :=
  { bufferList with mBuffers :=
      (fun i =>
        if i < bufferList.mNumberBuffers then
          { bufferList.mBuffers i with mData :=
              (fun p =>
                if dstOffset ≤ p ∧
                    p < dstOffset +
                      min byteCount (u32sub (bufferList.mBuffers i).mDataByteSize dstOffset) then
                  buffers i (srcOffset + (p - dstOffset))
                else (bufferList.mBuffers i).mData p) }
        else bufferList.mBuffers i) }

/-- SFB::AudioRingBuffer (SFBAudioRingBuffer.cpp).  The per-channel regions
of the single allocation are modelled as a two-argument byte store indexed
by channel then byte offset within the channel region. -/
structure AudioRingBuffer where
  mFormat : CAStreamBasicDescription
  mCapacityFrames : Nat
  mCapacityFramesMask : Nat
  mBuffers : Nat → Nat → Nat
  mReadPointer : Nat
  mWritePointer : Nat

/-- SFB::AudioRingBuffer::Allocate.  The malloc call is modelled as
succeeding; the memset of the whole allocation makes the all-zero store
faithful. -/
def AudioRingBuffer.Allocate (format : CAStreamBasicDescription) (capacityFrames : Nat) :
    Option AudioRingBuffer :=
  if format.IsInterleaved = true ∨ capacityFrames < 2 ∨ capacityFrames > 2 ^ 31 then none
  else
    let cap := NextPowerOfTwo capacityFrames
    some { mFormat := format, mCapacityFrames := cap, mCapacityFramesMask := cap - 1,
           mBuffers := fun _ _ => 0, mReadPointer := 0, mWritePointer := 0 }

/-- SFB::AudioRingBuffer::Reset. -/
def AudioRingBuffer.Reset (rb : AudioRingBuffer) : AudioRingBuffer :=
  { rb with mReadPointer := 0, mWritePointer := 0 }

/-- SFB::AudioRingBuffer::FramesAvailableToRead. -/
def AudioRingBuffer.FramesAvailableToRead (rb : AudioRingBuffer) : Nat :=
  if rb.mWritePointer > rb.mReadPointer then rb.mWritePointer - rb.mReadPointer
  else (u32 (u32sub rb.mWritePointer rb.mReadPointer + rb.mCapacityFrames)) &&& rb.mCapacityFramesMask

/-- SFB::AudioRingBuffer::FramesAvailableToWrite. -/
def AudioRingBuffer.FramesAvailableToWrite (rb : AudioRingBuffer) : Nat :=
  if rb.mWritePointer > rb.mReadPointer then
    ((u32 (u32sub rb.mReadPointer rb.mWritePointer + rb.mCapacityFrames)) &&& rb.mCapacityFramesMask) - 1
  else if rb.mWritePointer < rb.mReadPointer then rb.mReadPointer - rb.mWritePointer - 1
  else rb.mCapacityFrames - 1

/-- SFB::AudioRingBuffer::Read.  Returns the frame count read, the updated
buffer list (with its per-channel mDataByteSize set to the bytes read) and
the updated ring buffer.  The null-buffer-list early return is not modelled. -/
def AudioRingBuffer.Read (rb : AudioRingBuffer) (bufferList : AudioBufferList)
    (frameCount : Nat) ( allowPartial : Bool) : Nat × AudioBufferList × AudioRingBuffer :=
  if frameCount = 0 then (0, bufferList, rb)
  else
    let writePointer := rb.mWritePointer
    let readPointer := rb.mReadPointer
    let framesAvailable :=
      if writePointer > readPointer then writePointer - readPointer
      else (u32 (u32sub writePointer readPointer + rb.mCapacityFrames)) &&& rb.mCapacityFramesMask
    if framesAvailable = 0 ∨ (framesAvailable < frameCount ∧ allowPartial = false) then
      (0, bufferList, rb)
    else
      let framesToRead := min framesAvailable frameCount
      let abl :=
        if readPointer + framesToRead > rb.mCapacityFrames then
          let framesAfterReadPointer := rb.mCapacityFrames - readPointer
          let bytesAfterReadPointer := framesAfterReadPointer * rb.mFormat.mBytesPerFrame
          FetchABL (FetchABL bufferList 0 rb.mBuffers (readPointer * rb.mFormat.mBytesPerFrame)
              bytesAfterReadPointer)
            bytesAfterReadPointer rb.mBuffers 0
            ((framesToRead - framesAfterReadPointer) * rb.mFormat.mBytesPerFrame)
        else
          FetchABL bufferList 0 rb.mBuffers (readPointer * rb.mFormat.mBytesPerFrame)
            (framesToRead * rb.mFormat.mBytesPerFrame)
      let byteSize := framesToRead * rb.mFormat.mBytesPerFrame
      let abl2 := { abl with mBuffers :=
          (fun i =>
            if i < abl.mNumberBuffers then { abl.mBuffers i with mDataByteSize := byteSize }
            else abl.mBuffers i) }
      (framesToRead, abl2,
        { rb with mReadPointer := (u32 (readPointer + framesToRead)) &&& rb.mCapacityFramesMask })

/-- SFB::AudioRingBuffer::Write.  Returns the frame count written and the
updated ring buffer. -/
def AudioRingBuffer.Write (rb : AudioRingBuffer) (bufferList : AudioBufferList)
    (frameCount : Nat) ( allowPartial : Bool) : Nat × AudioRingBuffer :=
  if frameCount = 0 then (0, rb)
  else
    let writePointer := rb.mWritePointer
    let readPointer := rb.mReadPointer
    let framesAvailable :=
      if writePointer > readPointer then
        ((u32 (u32sub readPointer writePointer + rb.mCapacityFrames)) &&& rb.mCapacityFramesMask) - 1
      else if writePointer < readPointer then readPointer - writePointer - 1
      else rb.mCapacityFrames - 1
    if framesAvailable = 0 ∨ (framesAvailable < frameCount ∧ allowPartial = false) then (0, rb)
    else
      let framesToWrite := min framesAvailable frameCount
      let bufs :=
        if writePointer + framesToWrite > rb.mCapacityFrames then
          let framesAfterWritePointer := rb.mCapacityFrames - writePointer
          let bytesAfterWritePointer := framesAfterWritePointer * rb.mFormat.mBytesPerFrame
          StoreABL (StoreABL rb.mBuffers (writePointer * rb.mFormat.mBytesPerFrame) bufferList 0
              bytesAfterWritePointer)
            0 bufferList bytesAfterWritePointer
            ((framesToWrite - framesAfterWritePointer) * rb.mFormat.mBytesPerFrame)
        else
          StoreABL rb.mBuffers (writePointer * rb.mFormat.mBytesPerFrame) bufferList 0
            (framesToWrite * rb.mFormat.mBytesPerFrame)
      (framesToWrite,
        { rb with mBuffers := bufs,
                  mWritePointer := (u32 (writePointer + framesToWrite)) &&& rb.mCapacityFramesMask })

/-- Well-formedness of a frame ring buffer, in frame units. -/
def AudioRingBuffer.WF (rb : AudioRingBuffer) : Prop :=
  (∃ k, k ≤ 31 ∧ rb.mCapacityFrames = 2 ^ k) ∧
  rb.mCapacityFramesMask = rb.mCapacityFrames - 1 ∧
  2 ≤ rb.mCapacityFrames ∧
  rb.mReadPointer < rb.mCapacityFrames ∧
  rb.mWritePointer < rb.mCapacityFrames

/-- One client call on a frame ring buffer, for reachability statements. -/
inductive ARBOp where
  | read (bufferList : AudioBufferList) (frameCount : Nat) ( allowPartial : Bool)
  | write (bufferList : AudioBufferList) (frameCount : Nat) ( allowPartial : Bool)

/-- State reached by one call of the given operation. -/
def applyARBOp (rb : AudioRingBuffer) : ARBOp → AudioRingBuffer
  | .read abl n p => (rb.Read abl n p).2.2
  | .write abl n p => (rb.Write abl n p).2

/-- State reached from rb by a sequence of interleaved Read and Write calls. -/
def applyARBOps (rb : AudioRingBuffer) (ops : List ARBOp) : AudioRingBuffer :=
  ops.foldl applyARBOp rb

/-- Modelled from the spec: the constant sTimeBoundsQueueSize is declared in
SFBCARingBuffer.hpp, which is absent from the sources; the spec states the
time bounds queue has 8 slots (and SFBCARingBuffer.cpp iterates i < 8 when
zeroing the queue and retrying GetTimeBounds). -/
def sTimeBoundsQueueSize : Nat := 8

/-- Modelled from the spec: sTimeBoundsQueueMask, the index mask for the
8-slot time bounds queue (slot = counter mod 8 via bitwise AND). -/
def sTimeBoundsQueueMask : Nat := 7

/-- SFB::CARingBuffer::TimeBounds: a queue slot holding a bounds snapshot
and its per-slot update counter. -/
structure TimeBounds where
  mStartTime : Int
  mEndTime : Int
  mUpdateCounter : Nat

/-- SFB::CARingBuffer (SFBCARingBuffer.cpp).  The per-channel regions are a
two-argument byte store; the time bounds queue is a total function read only
at indices below sTimeBoundsQueueSize. -/
structure CARingBuffer where
  mFormat : CAStreamBasicDescription
  mCapacityFrames : Nat
  mCapacityFramesMask : Nat
  mBuffers : Nat → Nat → Nat
  mTimeBoundsQueue : Nat → TimeBounds
  mTimeBoundsQueueCounter : Nat

/-- ZeroRange (static helper in SFBCARingBuffer.cpp): zero byteCount bytes at
byteOffset in each of the first bufferCount channel regions. -/
def ZeroRange (buffers : Nat → Nat → Nat) (bufferCount byteOffset byteCount : Nat) :
    Nat → Nat → Nat :=
  fun i p =>
    if i < bufferCount ∧ byteOffset ≤ p ∧ p < byteOffset + byteCount then 0
    else buffers i p

/-- ZeroABL (static helper in SFBCARingBuffer.cpp): per channel of the buffer
list, zero min(byteCount, mDataByteSize - byteOffset) bytes at byteOffset. -/
def ZeroABL (bufferList : AudioBufferList) (byteOffset byteCount : Nat) : AudioBufferList :=
  { bufferList with mBuffers :=
      (fun i =>
        if i < bufferList.mNumberBuffers then
          { bufferList.mBuffers i with mData :=
              (fun p =>
                if byteOffset ≤ p ∧
                    p < byteOffset +
                      min byteCount
                        (u32sub (bufferList.mBuffers i).mDataByteSize byteOffset) then
                  0
                else (bufferList.mBuffers i).mData p) }
        else bufferList.mBuffers i) }

/-- SFB::CARingBuffer::Allocate.  The malloc call is modelled as succeeding;
the memset of the whole allocation makes the all-zero store faithful, and
the time bounds queue and counter are zeroed. -/
def CARingBuffer.Allocate (format : CAStreamBasicDescription) (capacityFrames : Nat) :
    Option CARingBuffer :=
  if format.IsInterleaved = true ∨ capacityFrames < 2 ∨ capacityFrames > 2 ^ 31 then none
  else
    let cap := NextPowerOfTwo capacityFrames
    some { mFormat := format, mCapacityFrames := cap, mCapacityFramesMask := cap - 1,
           mBuffers := fun _ _ => 0,
           mTimeBoundsQueue := fun _ => ⟨0, 0, 0⟩,
           mTimeBoundsQueueCounter := 0 }

/-- SFB::CARingBuffer::GetTimeBounds retry loop: each attempt reads the slot
selected by the shared counter and succeeds when the slot counter matches. -/
def CARingBuffer.getTimeBoundsLoop (st : CARingBuffer) : Nat → Option (Int × Int)
  | 0 => none
  | Nat.succ fuel =>
    let currentCounter := st.mTimeBoundsQueueCounter
    let currentIndex := currentCounter &&& sTimeBoundsQueueMask
    let bounds := st.mTimeBoundsQueue currentIndex
    if bounds.mUpdateCounter = currentCounter then some (bounds.mStartTime, bounds.mEndTime)
    else st.getTimeBoundsLoop fuel

/-- SFB::CARingBuffer::GetTimeBounds: up to 8 attempts; returns none when
the retry budget is exhausted (the source returns false). -/
def CARingBuffer.GetTimeBounds (st : CARingBuffer) : Option (Int × Int) :=
  st.getTimeBoundsLoop 8

/-- Modelled from the spec: the accessor StartTime declared in
SFBCARingBuffer.hpp (absent from the sources) returns the currently
published start time, read from the queue slot selected by the shared
counter. -/
def CARingBuffer.StartTime (st : CARingBuffer) : Int :=
  (st.mTimeBoundsQueue (st.mTimeBoundsQueueCounter &&& sTimeBoundsQueueMask)).mStartTime

/-- Modelled from the spec: the accessor EndTime declared in
SFBCARingBuffer.hpp (absent from the sources) returns the currently
published end time. -/
def CARingBuffer.EndTime (st : CARingBuffer) : Int :=
  (st.mTimeBoundsQueue (st.mTimeBoundsQueueCounter &&& sTimeBoundsQueueMask)).mEndTime

/-- Modelled from the spec: FrameByteOffset declared in SFBCARingBuffer.hpp
(absent from the sources); the spec fixes the physical storage position as
time mod capacityFrames, scaled to bytes. -/
def CARingBuffer.FrameByteOffset (st : CARingBuffer) (frameTime : Int) : Nat :=
  (frameTime % (st.mCapacityFrames : Int)).toNat * st.mFormat.mBytesPerFrame

/-- SFB::CARingBuffer::SetTimeBounds: write the next slot then publish the
incremented (uint32) counter. -/
def CARingBuffer.SetTimeBounds (st : CARingBuffer) (startTime endTime : Int) : CARingBuffer :=
  let nextCounter := u32 (st.mTimeBoundsQueueCounter + 1)
  let nextIndex := nextCounter &&& sTimeBoundsQueueMask
  { st with
    mTimeBoundsQueue :=
      (fun i =>
        if i = nextIndex then ⟨startTime, endTime, nextCounter⟩ else st.mTimeBoundsQueue i),
    mTimeBoundsQueueCounter := nextCounter }

/-- SFB::CARingBuffer::ClampTimesToBounds. -/
def CARingBuffer.ClampTimesToBounds (st : CARingBuffer) (startRead endRead : Int) :
    Option (Int × Int) :=
  match st.GetTimeBounds with
  | none => none
  | some (startTime, endTime) =>
    if startRead > endTime ∨ endRead < startTime then some (startRead, startRead)
    else
      let startRead2 := max startRead startTime
      some (startRead2, max (min endRead endTime) startRead2)

/-- SFB::CARingBuffer::Read.  Returns the success flag and the updated buffer
list; the ring buffer state is not modified by Read.  The null-buffer-list
check is not modelled. -/
def CARingBuffer.Read (st : CARingBuffer) (bufferList : AudioBufferList) (frameCount : Nat)
    (startRead : Int) : Bool × AudioBufferList :=
  if frameCount = 0 then (true, bufferList)
  else if frameCount > st.mCapacityFrames ∨ startRead < 0 then (false, bufferList)
  else
    let endRead0 := startRead + (frameCount : Int)
    let startRead0 := startRead
    match st.ClampTimesToBounds startRead endRead0 with
    | none => (false, bufferList)
    | some (startRead, endRead) =>
      if startRead = endRead then
        (true, ZeroABL bufferList 0 (frameCount * st.mFormat.mBytesPerFrame))
      else
        let byteSize := (endRead - startRead).toNat * st.mFormat.mBytesPerFrame
        let destStartByteOffset :=
          (max 0 ((startRead - startRead0) * (st.mFormat.mBytesPerFrame : Int))).toNat
        let abl1 :=
          if destStartByteOffset > 0 then
            ZeroABL bufferList 0 (min (frameCount * st.mFormat.mBytesPerFrame) destStartByteOffset)
          else bufferList
        let destEndSize := (max 0 (endRead0 - endRead)).toNat
        let abl2 :=
          if destEndSize > 0 then
            ZeroABL abl1 (destStartByteOffset + byteSize) (destEndSize * st.mFormat.mBytesPerFrame)
          else abl1
        let offset0 := st.FrameByteOffset startRead
        let offset1 := st.FrameByteOffset endRead
        let fetched :=
          if offset0 < offset1 then
            (offset1 - offset0,
              FetchABL abl2 destStartByteOffset st.mBuffers offset0 (offset1 - offset0))
          else
            let byteCount := st.mCapacityFrames * st.mFormat.mBytesPerFrame - offset0
            (byteCount + offset1,
              FetchABL (FetchABL abl2 destStartByteOffset st.mBuffers offset0 byteCount)
                (destStartByteOffset + byteCount) st.mBuffers 0 offset1)
        (true, { fetched.2 with mBuffers :=
            (fun i =>
              if i < fetched.2.mNumberBuffers then
                { fetched.2.mBuffers i with mDataByteSize := fetched.1 }
              else fetched.2.mBuffers i) })

/-- The bounds adjustment block at the top of SFB::CARingBuffer::Write:
rewind collapses the bounds, a fitting write leaves them, and an overrunning
write advances the start one capacity behind the write end. -/
def CARingBuffer.boundsAdjust (st : CARingBuffer) (frameCount : Nat) (startWrite : Int) :
    CARingBuffer :=
  let endWrite := startWrite + (frameCount : Int)
  if startWrite < st.EndTime then st.SetTimeBounds startWrite startWrite
  else if endWrite - st.StartTime ≤ (st.mCapacityFrames : Int) then st
  else
    let newStart := endWrite - (st.mCapacityFrames : Int)
    let newEnd := max newStart st.EndTime
    st.SetTimeBounds newStart newEnd

/-- The gap zeroing block of SFB::CARingBuffer::Write: when the write starts
strictly after the current end time, zero the skipped physical range on
every channel stream before storing. -/
def CARingBuffer.gapZero (st : CARingBuffer) (startWrite : Int) : CARingBuffer :=
  let curEnd := st.EndTime
  if startWrite > curEnd then
    let offset0 := st.FrameByteOffset curEnd
    let offset1 := st.FrameByteOffset startWrite
    if offset0 < offset1 then
      { st with mBuffers :=
          ZeroRange st.mBuffers st.mFormat.ChannelStreamCount offset0 (offset1 - offset0) }
    else
      { st with mBuffers :=
          (ZeroRange (ZeroRange st.mBuffers st.mFormat.ChannelStreamCount offset0
              (st.mCapacityFrames * st.mFormat.mBytesPerFrame - offset0))
            st.mFormat.ChannelStreamCount 0 offset1) }
  else st

/-- The data copy block of SFB::CARingBuffer::Write: store the buffer list
into physical storage at the write range, split at the physical wrap. -/
def CARingBuffer.storeStage (st : CARingBuffer) (bufferList : AudioBufferList)
    (frameCount : Nat) (startWrite : Int) : CARingBuffer :=
  let endWrite := startWrite + (frameCount : Int)
  let offset0 := st.FrameByteOffset startWrite
  let offset1 := st.FrameByteOffset endWrite
  if offset0 < offset1 then
    { st with mBuffers := StoreABL st.mBuffers offset0 bufferList 0 (offset1 - offset0) }
  else
    let byteCount := st.mCapacityFrames * st.mFormat.mBytesPerFrame - offset0
    { st with mBuffers :=
        (StoreABL (StoreABL st.mBuffers offset0 bufferList 0 byteCount) 0 bufferList
          byteCount offset1) }

/-- SFB::CARingBuffer::Write: validation, bounds adjustment, gap zeroing,
data copy, and the final bounds publication. -/
def CARingBuffer.Write (st : CARingBuffer) (bufferList : AudioBufferList) (frameCount : Nat)
    (startWrite : Int) : Bool × CARingBuffer :=
  if frameCount = 0 then (true, st)
  else if frameCount > st.mCapacityFrames ∨ startWrite < 0 then (false, st)
  else
    let st1 := st.boundsAdjust frameCount startWrite
    let st2 := st1.gapZero startWrite
    let st3 := st2.storeStage bufferList frameCount startWrite
    (true, st3.SetTimeBounds st3.StartTime (startWrite + (frameCount : Int)))

/-- Sequential consistency of the published slot: the queue slot selected by
the shared counter carries the counter itself. -/
def CARingBuffer.queueWF (st : CARingBuffer) : Prop :=
  (st.mTimeBoundsQueue (st.mTimeBoundsQueueCounter &&& sTimeBoundsQueueMask)).mUpdateCounter
    = st.mTimeBoundsQueueCounter

/-- The single-writer invariant of the timestamped ring buffer: a consistent
published slot, ordered bounds, and a bounds span within the capacity. -/
def CARingBuffer.Inv (st : CARingBuffer) : Prop :=
  st.queueWF ∧ st.StartTime ≤ st.EndTime ∧
  st.EndTime - st.StartTime ≤ (st.mCapacityFrames : Int)

/-- State reached from st by a sequence of Write calls on the timestamped
ring buffer. -/
def applyCARBWrites (st : CARingBuffer) (ws : List (AudioBufferList × Nat × Int)) :
    CARingBuffer :=
  ws.foldl (fun st w => (st.Write w.1 w.2.1 w.2.2).2) st

/-- Mono 1-byte-per-frame non-interleaved format used for the concrete
scenario (format flags carry kAudioFormatFlagIsNonInterleaved). -/
def c1Format : CAStreamBasicDescription := ⟨32, 1, 1⟩

/-- The state produced by CARingBuffer.Allocate with the scenario format and
a requested capacity of 5 frames (rounded to 8). -/
def c1State0 : CARingBuffer := ⟨c1Format, 8, 7, fun _ _ => 0, fun _ => ⟨0, 0, 0⟩, 0⟩

/-- Source buffer list for the first write: frames for times 0..3 hold bytes
10..13. -/
def c1Abl1 : AudioBufferList := ⟨1, fun _ => ⟨4, fun p => 10 + p⟩⟩

/-- Source buffer list for the second write: frames for times 4..9 hold
bytes 14..19. -/
def c1Abl2 : AudioBufferList := ⟨1, fun _ => ⟨6, fun p => 14 + p⟩⟩

/-- Destination buffer list for the reads: 4 frames of capacity, filled with
the sentinel byte 99. -/
def c1Out : AudioBufferList := ⟨1, fun _ => ⟨4, fun _ => 99⟩⟩

/-- State after writing frames for times 0..3. -/
def c1State1 : CARingBuffer := (c1State0.Write c1Abl1 4 0).2

/-- State after additionally writing frames for times 4..9. -/
def c1State2 : CARingBuffer := (c1State1.Write c1Abl2 6 4).2

theorem U32_eq_pow : U32 = 2 ^ 32 := by norm_num [U32]

theorem u32_land_mask (x cap k : Nat) (hcap : cap = 2 ^ k) (hk : k ≤ 32) :
    (u32 x) &&& (cap - 1) = x % cap := by
  subst hcap
  rw [Nat.and_pow_two_sub_one_eq_mod]
  show x % U32 % 2 ^ k = x % 2 ^ k
  rw [U32_eq_pow]
  exact Nat.mod_mod_of_dvd x (Nat.pow_dvd_pow 2 hk)

theorem mod_cap_of_dvd (x cap : Nat) (hdvd : cap ∣ U32) : (x % U32) % cap = x % cap :=
  Nat.mod_mod_of_dvd x hdvd

theorem big_sub_mod (wp rp cap M : Nat) (h : rp ≤ cap) (hM : cap ≤ M) (hdvd : cap ∣ M) :
    (wp + M - rp) % cap = (wp + cap - rp) % cap := by
  obtain ⟨m, hm⟩ := hdvd
  rcases m with _ | m
  · have hc : cap = 0 := by omega
    subst hm
    simp [hc]
  · have heq : wp + cap * (m + 1) - rp = (wp + cap - rp) + cap * m := by
      have : cap * (m + 1) = cap * m + cap := by ring
      omega
    rw [hm, heq, Nat.add_mul_mod_self_left]

theorem cap_dvd_U32 (cap k : Nat) (hcap : cap = 2 ^ k) (hk : k ≤ 32) : cap ∣ U32 := by
  rw [U32_eq_pow, hcap]; exact Nat.pow_dvd_pow 2 hk

theorem BytesAvailableToRead_eq (rb : RingBuffer) (h : rb.WF) :
    rb.BytesAvailableToRead =
      (rb.mWritePosition + rb.mCapacityBytes - rb.mReadPosition) % rb.mCapacityBytes := by
  obtain ⟨⟨k, hk, hcap⟩, hmask, h2, hr, hw⟩ := h
  have hdvd : rb.mCapacityBytes ∣ U32 := cap_dvd_U32 _ k hcap (by omega)
  unfold RingBuffer.BytesAvailableToRead
  split
  · rename_i hgt
    have h1 : rb.mWritePosition + rb.mCapacityBytes - rb.mReadPosition
        = (rb.mWritePosition - rb.mReadPosition) + rb.mCapacityBytes := by omega
    rw [h1, Nat.add_mod_right, Nat.mod_eq_of_lt (by omega)]
  · rename_i hle
    rw [hmask, u32_land_mask _ _ k hcap (by omega)]
    show (u32sub rb.mWritePosition rb.mReadPosition + rb.mCapacityBytes) % rb.mCapacityBytes = _
    rw [Nat.add_mod_right]
    show (rb.mWritePosition + U32 - rb.mReadPosition) % U32 % rb.mCapacityBytes = _
    rw [mod_cap_of_dvd _ _ hdvd]
    exact big_sub_mod _ _ _ _ (by omega) (Nat.le_of_dvd (by norm_num [U32]) hdvd) hdvd

theorem BytesAvailableToWrite_eq (rb : RingBuffer) (h : rb.WF) :
    rb.BytesAvailableToWrite =
      (rb.mReadPosition + rb.mCapacityBytes - 1 - rb.mWritePosition) % rb.mCapacityBytes := by
  obtain ⟨⟨k, hk, hcap⟩, hmask, h2, hr, hw⟩ := h
  have hdvd : rb.mCapacityBytes ∣ U32 := cap_dvd_U32 _ k hcap (by omega)
  unfold RingBuffer.BytesAvailableToWrite
  split
  · rename_i hgt
    rw [hmask, u32_land_mask _ _ k hcap (by omega)]
    show (u32sub rb.mReadPosition rb.mWritePosition + rb.mCapacityBytes) % rb.mCapacityBytes - 1 = _
    rw [Nat.add_mod_right]
    show (rb.mReadPosition + U32 - rb.mWritePosition) % U32 % rb.mCapacityBytes - 1 = _
    rw [mod_cap_of_dvd _ _ hdvd,
      big_sub_mod _ _ _ _ (by omega) (Nat.le_of_dvd (by norm_num [U32]) hdvd) hdvd,
      Nat.mod_eq_of_lt (by omega), Nat.mod_eq_of_lt (by omega)]
    omega
  · split
    · rename_i hlt
      have heq : rb.mReadPosition + rb.mCapacityBytes - 1 - rb.mWritePosition
          = (rb.mReadPosition - rb.mWritePosition - 1) + rb.mCapacityBytes := by omega
      rw [heq, Nat.add_mod_right, Nat.mod_eq_of_lt (by omega)]
    · rename_i h1 hnlt
      have heq : rb.mReadPosition + rb.mCapacityBytes - 1 - rb.mWritePosition
          = rb.mCapacityBytes - 1 := by omega
      rw [heq, Nat.mod_eq_of_lt (by omega)]

theorem avail_sum (rb : RingBuffer) (h : rb.WF) :
    rb.BytesAvailableToRead + rb.BytesAvailableToWrite = rb.mCapacityBytes - 1 := by
  have hwf := h
  obtain ⟨⟨k, hk, hcap⟩, hmask, h2, hr, hw⟩ := hwf
  rw [BytesAvailableToRead_eq _ h, BytesAvailableToWrite_eq _ h]
  rcases le_or_lt rb.mReadPosition rb.mWritePosition with hle | hlt
  · have e1 : rb.mWritePosition + rb.mCapacityBytes - rb.mReadPosition
        = (rb.mWritePosition - rb.mReadPosition) + rb.mCapacityBytes := by omega
    rw [e1, Nat.add_mod_right, Nat.mod_eq_of_lt (by omega), Nat.mod_eq_of_lt (by omega)]
    omega
  · have e1 : rb.mReadPosition + rb.mCapacityBytes - 1 - rb.mWritePosition
        = (rb.mReadPosition - rb.mWritePosition - 1) + rb.mCapacityBytes := by omega
    rw [e1, Nat.add_mod_right, Nat.mod_eq_of_lt (by omega), Nat.mod_eq_of_lt (by omega)]
    omega

theorem Read_WF (rb : RingBuffer) (dst : Nat → Nat) (n : Nat) (p : Bool) (h : rb.WF) :
    ((rb.Read dst n p).2.2).WF := by
  obtain ⟨⟨k, hk, hcap⟩, hmask, h2, hr, hw⟩ := h
  have hbound : ∀ x : Nat, ((u32 x) &&& rb.mCapacityBytesMask) < rb.mCapacityBytes := by
    intro x
    rw [hmask, u32_land_mask _ _ k hcap (by omega)]
    exact Nat.mod_lt _ (by omega)
  simp only [RingBuffer.Read]
  repeat' split
  all_goals first
    | exact ⟨⟨k, hk, hcap⟩, hmask, h2, hr, hw⟩
    | exact ⟨⟨k, hk, hcap⟩, hmask, h2, hbound _, hw⟩

theorem Write_WF (rb : RingBuffer) (src : Nat → Nat) (n : Nat) (p : Bool) (h : rb.WF) :
    ((rb.Write src n p).2).WF := by
  obtain ⟨⟨k, hk, hcap⟩, hmask, h2, hr, hw⟩ := h
  have hbound : ∀ x : Nat, ((u32 x) &&& rb.mCapacityBytesMask) < rb.mCapacityBytes := by
    intro x
    rw [hmask, u32_land_mask _ _ k hcap (by omega)]
    exact Nat.mod_lt _ (by omega)
  simp only [RingBuffer.Write]
  repeat' split
  all_goals first
    | exact ⟨⟨k, hk, hcap⟩, hmask, h2, hr, hw⟩
    | exact ⟨⟨k, hk, hcap⟩, hmask, h2, hr, hbound _⟩

theorem applyRBOps_WF (ops : List RBOp) (rb : RingBuffer) (h : rb.WF) :
    (applyRBOps rb ops).WF := by
  induction ops generalizing rb with
  | nil => exact h
  | cons op ops ih =>
    show (applyRBOps (applyRBOp rb op) ops).WF
    apply ih
    cases op with
    | read n p => exact Read_WF rb _ n p h
    | write s n p => exact Write_WF rb s n p h

theorem NextPowerOfTwo_eq (x : Nat) (h2 : 2 ≤ x) (h31 : x ≤ 2 ^ 31) :
    NextPowerOfTwo x = 2 ^ Nat.size (x - 1) := by
  have hx1 : x - 1 < 2 ^ 31 := by omega
  have hsz : Nat.size (x - 1) ≤ 31 := Nat.size_le.2 hx1
  unfold NextPowerOfTwo clz32 u32
  have h1 : 32 - (32 - Nat.size (x - 1)) = Nat.size (x - 1) := by omega
  rw [h1, Nat.shiftLeft_eq, one_mul, U32_eq_pow]
  exact Nat.mod_eq_of_lt (Nat.pow_lt_pow_right (by omega) (by omega))

theorem NextPowerOfTwo_size_pos (x : Nat) (h2 : 2 ≤ x) : 1 ≤ Nat.size (x - 1) :=
  Nat.size_pos.2 (by omega)

theorem NextPowerOfTwo_ge (x : Nat) (h2 : 2 ≤ x) (h31 : x ≤ 2 ^ 31) :
    x ≤ NextPowerOfTwo x := by
  rw [NextPowerOfTwo_eq x h2 h31]
  have := Nat.lt_size_self (x - 1)
  omega

theorem NextPowerOfTwo_min (x j : Nat) (h2 : 2 ≤ x) (h31 : x ≤ 2 ^ 31) (hj : x ≤ 2 ^ j) :
    NextPowerOfTwo x ≤ 2 ^ j := by
  rw [NextPowerOfTwo_eq x h2 h31]
  exact Nat.pow_le_pow_right (by omega) (Nat.size_le.2 (by omega))

theorem Allocate_WF (c : Nat) (rb : RingBuffer) (h : RingBuffer.Allocate c = some rb) : rb.WF := by
  unfold RingBuffer.Allocate at h
  split at h
  · exact absurd h (by simp)
  · rename_i hc
    have h2 : 2 ≤ c := by omega
    have h31 : c ≤ 2 ^ 31 := by omega
    have hs1 := NextPowerOfTwo_size_pos c h2
    have hx1 : c - 1 < 2 ^ 31 := by omega
    have hsz : Nat.size (c - 1) ≤ 31 := Nat.size_le.2 hx1
    have hcap : NextPowerOfTwo c = 2 ^ Nat.size (c - 1) := NextPowerOfTwo_eq c h2 h31
    have h2cap : 2 ≤ NextPowerOfTwo c := by
      rw [hcap]
      calc 2 = 2 ^ 1 := by norm_num
      _ ≤ 2 ^ Nat.size (c - 1) := Nat.pow_le_pow_right (by omega) hs1
    rw [Option.some.injEq] at h
    subst h
    have hpos : 0 < NextPowerOfTwo c := by omega
    exact ⟨⟨Nat.size (c - 1), hsz, hcap⟩, rfl, h2cap, hpos, hpos⟩

theorem Read_eq (rb : RingBuffer) (dst : Nat → Nat) (n : Nat) (p : Bool) :
    rb.Read dst n p =
      (if n = 0 then (0, dst, rb)
       else if rb.BytesAvailableToRead = 0 ∨ (rb.BytesAvailableToRead < n ∧ p = false) then
         (0, dst, rb)
       else
         (min rb.BytesAvailableToRead n,
          (if rb.mReadPosition + min rb.BytesAvailableToRead n > rb.mCapacityBytes then
             memcpy (memcpy dst 0 rb.mBuffer rb.mReadPosition (rb.mCapacityBytes - rb.mReadPosition))
               (rb.mCapacityBytes - rb.mReadPosition) rb.mBuffer 0
               (min rb.BytesAvailableToRead n - (rb.mCapacityBytes - rb.mReadPosition))
           else memcpy dst 0 rb.mBuffer rb.mReadPosition (min rb.BytesAvailableToRead n)),
          { rb with mReadPosition :=
              (u32 (rb.mReadPosition + min rb.BytesAvailableToRead n)) &&& rb.mCapacityBytesMask })) :=
  rfl

theorem Write_eq (rb : RingBuffer) (src : Nat → Nat) (n : Nat) (p : Bool) :
    rb.Write src n p =
      (if n = 0 then (0, rb)
       else if rb.BytesAvailableToWrite = 0 ∨ (rb.BytesAvailableToWrite < n ∧ p = false) then
         (0, rb)
       else
         (min rb.BytesAvailableToWrite n,
          { rb with
            mBuffer :=
              (if rb.mWritePosition + min rb.BytesAvailableToWrite n > rb.mCapacityBytes then
                 memcpy (memcpy rb.mBuffer rb.mWritePosition src 0 (rb.mCapacityBytes - rb.mWritePosition))
                   0 src (rb.mCapacityBytes - rb.mWritePosition)
                   (min rb.BytesAvailableToWrite n - (rb.mCapacityBytes - rb.mWritePosition))
               else memcpy rb.mBuffer rb.mWritePosition src 0 (min rb.BytesAvailableToWrite n)),
            mWritePosition :=
              (u32 (rb.mWritePosition + min rb.BytesAvailableToWrite n)) &&& rb.mCapacityBytesMask })) :=
  rfl

theorem availRead_lt_cap (rb : RingBuffer) (h : rb.WF) :
    rb.BytesAvailableToRead < rb.mCapacityBytes := by
  obtain ⟨⟨k, hk, hcap⟩, hmask, h2, hr, hw⟩ := h.imp id id
  rw [BytesAvailableToRead_eq _ h]
  exact Nat.mod_lt _ (by omega)

theorem availWrite_lt_cap (rb : RingBuffer) (h : rb.WF) :
    rb.BytesAvailableToWrite < rb.mCapacityBytes := by
  obtain ⟨⟨k, hk, hcap⟩, hmask, h2, hr, hw⟩ := h.imp id id
  rw [BytesAvailableToWrite_eq _ h]
  exact Nat.mod_lt _ (by omega)

theorem byteRead_reject (rb : RingBuffer) (dst : Nat → Nat) (n : Nat)
    (hlt : rb.BytesAvailableToRead < n) :
    rb.Read dst n false = (0, dst, rb) := by
  have hn : ¬(n = 0) := by omega
  rw [Read_eq, if_neg hn, if_pos]
  rcases Nat.eq_zero_or_pos rb.BytesAvailableToRead with h0 | h0
  · exact Or.inl h0
  · exact Or.inr ⟨hlt, rfl⟩

theorem byteRead_partial (rb : RingBuffer) (dst : Nat → Nat) (n : Nat) (h : rb.WF)
    (hlt : rb.BytesAvailableToRead < n) :
    (rb.Read dst n true).1 = rb.BytesAvailableToRead ∧
    (rb.Read dst n true).2.2 = { rb with mReadPosition :=
        (rb.mReadPosition + rb.BytesAvailableToRead) % rb.mCapacityBytes } ∧
    (∀ q, q < rb.BytesAvailableToRead →
      (rb.Read dst n true).2.1 q = rb.mBuffer ((rb.mReadPosition + q) % rb.mCapacityBytes)) ∧
    (∀ q, rb.BytesAvailableToRead ≤ q → (rb.Read dst n true).2.1 q = dst q) := by
  have hAcap := availRead_lt_cap rb h
  obtain ⟨⟨k, hk, hcap⟩, hmask, h2, hr, hw⟩ := h.imp id id
  have hn : ¬(n = 0) := by omega
  rcases Nat.eq_zero_or_pos rb.BytesAvailableToRead with h0 | h0
  · have hguard : rb.BytesAvailableToRead = 0 ∨
        (rb.BytesAvailableToRead < n ∧ true = false) := Or.inl h0
    simp only [Read_eq, if_neg hn, if_pos hguard]
    refine ⟨h0.symm, ?_, ?_, ?_⟩
    · rw [h0, Nat.add_zero, Nat.mod_eq_of_lt hr]
    · intro q hq; omega
    · intro q hq; trivial
  · have hguard : ¬(rb.BytesAvailableToRead = 0 ∨
        (rb.BytesAvailableToRead < n ∧ true = false)) := by
      rintro (hc | ⟨-, hc⟩)
      · omega
      · exact Bool.noConfusion hc
    have hmin : min rb.BytesAvailableToRead n = rb.BytesAvailableToRead :=
      Nat.min_eq_left (Nat.le_of_lt hlt)
    simp only [Read_eq, if_neg hn, if_neg hguard, hmin]
    refine ⟨by trivial, ?_, ?_, ?_⟩
    · rw [hmask, u32_land_mask _ _ k hcap (by omega)]
    · intro q hq
      split
      · rename_i hwrap
        simp only [memcpy]
        rcases Nat.lt_or_ge q (rb.mCapacityBytes - rb.mReadPosition) with hq1 | hq1
        · rw [if_neg (by omega), if_pos (by omega), Nat.mod_eq_of_lt (by omega)]
          try congr 1
          try omega
        · rw [if_pos (by omega), Nat.mod_eq_sub_mod (by omega), Nat.mod_eq_of_lt (by omega)]
          try congr 1
          try omega
      · rename_i hnowrap
        simp only [memcpy]
        rw [if_pos (by omega), Nat.mod_eq_of_lt (by omega)]
        try congr 1
        try omega
    · intro q hq
      split
      · simp only [memcpy]
        rw [if_neg (by omega), if_neg (by omega)]
      · simp only [memcpy]
        rw [if_neg (by omega)]

theorem byteWrite_reject (rb : RingBuffer) (src : Nat → Nat) (n : Nat)
    (hlt : rb.BytesAvailableToWrite < n) :
    rb.Write src n false = (0, rb) := by
  have hn : ¬(n = 0) := by omega
  rw [Write_eq, if_neg hn, if_pos]
  rcases Nat.eq_zero_or_pos rb.BytesAvailableToWrite with h0 | h0
  · exact Or.inl h0
  · exact Or.inr ⟨hlt, rfl⟩

theorem byteWrite_partial (rb : RingBuffer) (src : Nat → Nat) (n : Nat) (h : rb.WF)
    (hlt : rb.BytesAvailableToWrite < n) :
    (rb.Write src n true).1 = rb.BytesAvailableToWrite ∧
    (rb.Write src n true).2.mWritePosition
      = (rb.mWritePosition + rb.BytesAvailableToWrite) % rb.mCapacityBytes ∧
    (rb.Write src n true).2.mReadPosition = rb.mReadPosition ∧
    (rb.Write src n true).2.mCapacityBytes = rb.mCapacityBytes ∧
    (rb.Write src n true).2.mCapacityBytesMask = rb.mCapacityBytesMask ∧
    (∀ q, q < rb.mCapacityBytes →
      (rb.Write src n true).2.mBuffer q =
        if (q + rb.mCapacityBytes - rb.mWritePosition) % rb.mCapacityBytes
            < rb.BytesAvailableToWrite
        then src ((q + rb.mCapacityBytes - rb.mWritePosition) % rb.mCapacityBytes)
        else rb.mBuffer q) ∧
    (∀ q, rb.mCapacityBytes ≤ q → (rb.Write src n true).2.mBuffer q = rb.mBuffer q) := by
  have hWcap := availWrite_lt_cap rb h
  obtain ⟨⟨k, hk, hcap⟩, hmask, h2, hr, hw⟩ := h.imp id id
  have hn : ¬(n = 0) := by omega
  rcases Nat.eq_zero_or_pos rb.BytesAvailableToWrite with h0 | h0
  · have hguard : rb.BytesAvailableToWrite = 0 ∨
        (rb.BytesAvailableToWrite < n ∧ true = false) := Or.inl h0
    simp only [Write_eq, if_neg hn, if_pos hguard]
    refine ⟨h0.symm, ?_, by trivial, by trivial, by trivial, ?_, ?_⟩
    · rw [h0, Nat.add_zero, Nat.mod_eq_of_lt hw]
    · intro q hcapq
      rw [h0, if_neg (by omega)]
    · intro q hq; trivial
  · have hguard : ¬(rb.BytesAvailableToWrite = 0 ∨
        (rb.BytesAvailableToWrite < n ∧ true = false)) := by
      rintro (hc | ⟨-, hc⟩)
      · omega
      · exact Bool.noConfusion hc
    have hmin : min rb.BytesAvailableToWrite n = rb.BytesAvailableToWrite :=
      Nat.min_eq_left (Nat.le_of_lt hlt)
    simp only [Write_eq, if_neg hn, if_neg hguard, hmin]
    refine ⟨by trivial, ?_, by trivial, by trivial, by trivial, ?_, ?_⟩
    · rw [hmask, u32_land_mask _ _ k hcap (by omega)]
    · intro q hcapq
      split
      · rename_i hwrap
        simp only [memcpy]
        rcases Nat.lt_or_ge q rb.mWritePosition with hq1 | hq1
        · have ho : (q + rb.mCapacityBytes - rb.mWritePosition) % rb.mCapacityBytes
              = q + rb.mCapacityBytes - rb.mWritePosition := Nat.mod_eq_of_lt (by omega)
          rw [ho]
          rcases Nat.lt_or_ge q
              (rb.BytesAvailableToWrite - (rb.mCapacityBytes - rb.mWritePosition)) with hq2 | hq2
          · rw [if_pos (by omega), if_pos (by omega)]
            try congr 1
            try omega
          · rw [if_neg (by omega), if_neg (by omega), if_neg (by omega)]
        · have ho : (q + rb.mCapacityBytes - rb.mWritePosition) % rb.mCapacityBytes
              = q - rb.mWritePosition := by
            rw [show q + rb.mCapacityBytes - rb.mWritePosition
                = (q - rb.mWritePosition) + rb.mCapacityBytes by omega, Nat.add_mod_right]
            exact Nat.mod_eq_of_lt (by omega)
          rw [ho, if_neg (by omega), if_pos (by omega), if_pos (by omega)]
          try congr 1
          try omega
      · rename_i hnowrap
        simp only [memcpy]
        rcases Nat.lt_or_ge q rb.mWritePosition with hq1 | hq1
        · have ho : (q + rb.mCapacityBytes - rb.mWritePosition) % rb.mCapacityBytes
              = q + rb.mCapacityBytes - rb.mWritePosition := Nat.mod_eq_of_lt (by omega)
          rw [ho, if_neg (by omega), if_neg (by omega)]
        · have ho : (q + rb.mCapacityBytes - rb.mWritePosition) % rb.mCapacityBytes
              = q - rb.mWritePosition := by
            rw [show q + rb.mCapacityBytes - rb.mWritePosition
                = (q - rb.mWritePosition) + rb.mCapacityBytes by omega, Nat.add_mod_right]
            exact Nat.mod_eq_of_lt (by omega)
          rw [ho]
          rcases Nat.lt_or_ge q (rb.mWritePosition + rb.BytesAvailableToWrite) with hq2 | hq2
          · rw [if_pos (by omega), if_pos (by omega)]
            try congr 1
            try omega
          · rw [if_neg (by omega), if_neg (by omega)]
    · intro q hq
      split
      · simp only [memcpy]
        rw [if_neg (by omega), if_neg (by omega)]
      · simp only [memcpy]
        rw [if_neg (by omega)]

theorem FramesAvailableToRead_eq (rb : AudioRingBuffer) (h : rb.WF) :
    rb.FramesAvailableToRead =
      (rb.mWritePointer + rb.mCapacityFrames - rb.mReadPointer) % rb.mCapacityFrames := by
  obtain ⟨⟨k, hk, hcap⟩, hmask, h2, hr, hw⟩ := h
  have hdvd : rb.mCapacityFrames ∣ U32 := cap_dvd_U32 _ k hcap (by omega)
  unfold AudioRingBuffer.FramesAvailableToRead
  split
  · rename_i hgt
    have h1 : rb.mWritePointer + rb.mCapacityFrames - rb.mReadPointer
        = (rb.mWritePointer - rb.mReadPointer) + rb.mCapacityFrames := by omega
    rw [h1, Nat.add_mod_right, Nat.mod_eq_of_lt (by omega)]
  · rename_i hle
    rw [hmask, u32_land_mask _ _ k hcap (by omega)]
    show (u32sub rb.mWritePointer rb.mReadPointer + rb.mCapacityFrames) % rb.mCapacityFrames = _
    rw [Nat.add_mod_right]
    show (rb.mWritePointer + U32 - rb.mReadPointer) % U32 % rb.mCapacityFrames = _
    rw [mod_cap_of_dvd _ _ hdvd]
    exact big_sub_mod _ _ _ _ (by omega) (Nat.le_of_dvd (by norm_num [U32]) hdvd) hdvd

theorem FramesAvailableToWrite_eq (rb : AudioRingBuffer) (h : rb.WF) :
    rb.FramesAvailableToWrite =
      (rb.mReadPointer + rb.mCapacityFrames - 1 - rb.mWritePointer) % rb.mCapacityFrames := by
  obtain ⟨⟨k, hk, hcap⟩, hmask, h2, hr, hw⟩ := h
  have hdvd : rb.mCapacityFrames ∣ U32 := cap_dvd_U32 _ k hcap (by omega)
  unfold AudioRingBuffer.FramesAvailableToWrite
  split
  · rename_i hgt
    rw [hmask, u32_land_mask _ _ k hcap (by omega)]
    show (u32sub rb.mReadPointer rb.mWritePointer + rb.mCapacityFrames) % rb.mCapacityFrames - 1 = _
    rw [Nat.add_mod_right]
    show (rb.mReadPointer + U32 - rb.mWritePointer) % U32 % rb.mCapacityFrames - 1 = _
    rw [mod_cap_of_dvd _ _ hdvd,
      big_sub_mod _ _ _ _ (by omega) (Nat.le_of_dvd (by norm_num [U32]) hdvd) hdvd,
      Nat.mod_eq_of_lt (by omega), Nat.mod_eq_of_lt (by omega)]
    omega
  · split
    · rename_i hlt
      have heq : rb.mReadPointer + rb.mCapacityFrames - 1 - rb.mWritePointer
          = (rb.mReadPointer - rb.mWritePointer - 1) + rb.mCapacityFrames := by omega
      rw [heq, Nat.add_mod_right, Nat.mod_eq_of_lt (by omega)]
    · rename_i h1 hnlt
      have heq : rb.mReadPointer + rb.mCapacityFrames - 1 - rb.mWritePointer
          = rb.mCapacityFrames - 1 := by omega
      rw [heq, Nat.mod_eq_of_lt (by omega)]

theorem frames_avail_sum (rb : AudioRingBuffer) (h : rb.WF) :
    rb.FramesAvailableToRead + rb.FramesAvailableToWrite = rb.mCapacityFrames - 1 := by
  have hwf := h
  obtain ⟨⟨k, hk, hcap⟩, hmask, h2, hr, hw⟩ := hwf
  rw [FramesAvailableToRead_eq _ h, FramesAvailableToWrite_eq _ h]
  rcases le_or_lt rb.mReadPointer rb.mWritePointer with hle | hlt
  · have e1 : rb.mWritePointer + rb.mCapacityFrames - rb.mReadPointer
        = (rb.mWritePointer - rb.mReadPointer) + rb.mCapacityFrames := by omega
    rw [e1, Nat.add_mod_right, Nat.mod_eq_of_lt (by omega), Nat.mod_eq_of_lt (by omega)]
    omega
  · have e1 : rb.mReadPointer + rb.mCapacityFrames - 1 - rb.mWritePointer
        = (rb.mReadPointer - rb.mWritePointer - 1) + rb.mCapacityFrames := by omega
    rw [e1, Nat.add_mod_right, Nat.mod_eq_of_lt (by omega), Nat.mod_eq_of_lt (by omega)]
    omega

theorem audioRead_WF (rb : AudioRingBuffer) (abl : AudioBufferList) (n : Nat) (p : Bool)
    (h : rb.WF) : ((rb.Read abl n p).2.2).WF := by
  obtain ⟨⟨k, hk, hcap⟩, hmask, h2, hr, hw⟩ := h
  have hbound : ∀ x : Nat, ((u32 x) &&& rb.mCapacityFramesMask) < rb.mCapacityFrames := by
    intro x
    rw [hmask, u32_land_mask _ _ k hcap (by omega)]
    exact Nat.mod_lt _ (by omega)
  simp only [AudioRingBuffer.Read]
  repeat' split
  all_goals first
    | exact ⟨⟨k, hk, hcap⟩, hmask, h2, hr, hw⟩
    | exact ⟨⟨k, hk, hcap⟩, hmask, h2, hbound _, hw⟩

theorem audioWrite_WF (rb : AudioRingBuffer) (abl : AudioBufferList) (n : Nat) (p : Bool)
    (h : rb.WF) : ((rb.Write abl n p).2).WF := by
  obtain ⟨⟨k, hk, hcap⟩, hmask, h2, hr, hw⟩ := h
  have hbound : ∀ x : Nat, ((u32 x) &&& rb.mCapacityFramesMask) < rb.mCapacityFrames := by
    intro x
    rw [hmask, u32_land_mask _ _ k hcap (by omega)]
    exact Nat.mod_lt _ (by omega)
  simp only [AudioRingBuffer.Write]
  repeat' split
  all_goals first
    | exact ⟨⟨k, hk, hcap⟩, hmask, h2, hr, hw⟩
    | exact ⟨⟨k, hk, hcap⟩, hmask, h2, hr, hbound _⟩

theorem applyARBOps_WF (ops : List ARBOp) (rb : AudioRingBuffer) (h : rb.WF) :
    (applyARBOps rb ops).WF := by
  induction ops generalizing rb with
  | nil => exact h
  | cons op ops ih =>
    show (applyARBOps (applyARBOp rb op) ops).WF
    apply ih
    cases op with
    | read abl n p => exact audioRead_WF rb abl n p h
    | write abl n p => exact audioWrite_WF rb abl n p h

theorem audioAllocate_WF (fmt : CAStreamBasicDescription) (c : Nat) (rb : AudioRingBuffer)
    (h : AudioRingBuffer.Allocate fmt c = some rb) : rb.WF := by
  unfold AudioRingBuffer.Allocate at h
  split at h
  · exact absurd h (by simp)
  · rename_i hc
    have h2 : 2 ≤ c := by omega
    have h31 : c ≤ 2 ^ 31 := by omega
    have hs1 := NextPowerOfTwo_size_pos c h2
    have hsz : Nat.size (c - 1) ≤ 31 := Nat.size_le.2 (by omega)
    have hcap : NextPowerOfTwo c = 2 ^ Nat.size (c - 1) := NextPowerOfTwo_eq c h2 h31
    have h2cap : 2 ≤ NextPowerOfTwo c := by
      rw [hcap]
      calc 2 = 2 ^ 1 := by norm_num
      _ ≤ 2 ^ Nat.size (c - 1) := Nat.pow_le_pow_right (by omega) hs1
    rw [Option.some.injEq] at h
    subst h
    have hpos : 0 < NextPowerOfTwo c := by omega
    exact ⟨⟨Nat.size (c - 1), hsz, hcap⟩, rfl, h2cap, hpos, hpos⟩

theorem u32sub_small (a b : Nat) (hb : b ≤ a) (ha : a < U32) : u32sub a b = a - b := by
  unfold u32sub
  rw [show a + U32 - b = (a - b) + U32 by omega, Nat.add_mod_right]
  exact Nat.mod_eq_of_lt (by omega)

theorem framesAvailRead_lt_cap (rb : AudioRingBuffer) (h : rb.WF) :
    rb.FramesAvailableToRead < rb.mCapacityFrames := by
  obtain ⟨⟨k, hk, hcap⟩, hmask, h2, hr, hw⟩ := h.imp id id
  rw [FramesAvailableToRead_eq _ h]
  exact Nat.mod_lt _ (by omega)

theorem framesAvailWrite_lt_cap (rb : AudioRingBuffer) (h : rb.WF) :
    rb.FramesAvailableToWrite < rb.mCapacityFrames := by
  obtain ⟨⟨k, hk, hcap⟩, hmask, h2, hr, hw⟩ := h.imp id id
  rw [FramesAvailableToWrite_eq _ h]
  exact Nat.mod_lt _ (by omega)

theorem audioRead_reject (rb : AudioRingBuffer) (abl : AudioBufferList) (n : Nat)
    (hlt : rb.FramesAvailableToRead < n) :
    rb.Read abl n false = (0, abl, rb) := by
  have hn : ¬(n = 0) := by omega
  have hA : (if rb.mWritePointer > rb.mReadPointer then rb.mWritePointer - rb.mReadPointer
      else (u32 (u32sub rb.mWritePointer rb.mReadPointer + rb.mCapacityFrames)) &&&
        rb.mCapacityFramesMask) = rb.FramesAvailableToRead := rfl
  simp only [AudioRingBuffer.Read, hA, if_neg hn]
  rw [if_pos]
  rcases Nat.eq_zero_or_pos rb.FramesAvailableToRead with h0 | h0
  · exact Or.inl h0
  · exact Or.inr ⟨hlt, trivial⟩

theorem audioWrite_reject (rb : AudioRingBuffer) (abl : AudioBufferList) (n : Nat)
    (hlt : rb.FramesAvailableToWrite < n) :
    rb.Write abl n false = (0, rb) := by
  have hn : ¬(n = 0) := by omega
  have hA : (if rb.mWritePointer > rb.mReadPointer then
      ((u32 (u32sub rb.mReadPointer rb.mWritePointer + rb.mCapacityFrames)) &&&
        rb.mCapacityFramesMask) - 1
      else if rb.mWritePointer < rb.mReadPointer then rb.mReadPointer - rb.mWritePointer - 1
      else rb.mCapacityFrames - 1) = rb.FramesAvailableToWrite := rfl
  simp only [AudioRingBuffer.Write, hA, if_neg hn]
  rw [if_pos]
  rcases Nat.eq_zero_or_pos rb.FramesAvailableToWrite with h0 | h0
  · exact Or.inl h0
  · exact Or.inr ⟨hlt, trivial⟩

theorem FetchABL_numBuffers (abl : AudioBufferList) (d : Nat) (bufs : Nat → Nat → Nat)
    (s c : Nat) : (FetchABL abl d bufs s c).mNumberBuffers = abl.mNumberBuffers := rfl

theorem FetchABL_size (abl : AudioBufferList) (d : Nat) (bufs : Nat → Nat → Nat) (s c i : Nat) :
    ((FetchABL abl d bufs s c).mBuffers i).mDataByteSize = (abl.mBuffers i).mDataByteSize := by
  unfold FetchABL
  dsimp only
  split <;> rfl

theorem FetchABL_buffers_ge (abl : AudioBufferList) (d : Nat) (bufs : Nat → Nat → Nat)
    (s c i : Nat) (hi : ¬ i < abl.mNumberBuffers) :
    (FetchABL abl d bufs s c).mBuffers i = abl.mBuffers i := by
  unfold FetchABL
  dsimp only
  rw [if_neg hi]

theorem FetchABL_data (abl : AudioBufferList) (d : Nat) (bufs : Nat → Nat → Nat) (s c i p : Nat) :
    ((FetchABL abl d bufs s c).mBuffers i).mData p =
      if i < abl.mNumberBuffers ∧ d ≤ p ∧
          p < d + min c (u32sub (abl.mBuffers i).mDataByteSize d) then
        bufs i (s + (p - d))
      else (abl.mBuffers i).mData p := by
  unfold FetchABL
  dsimp only
  by_cases hi : i < abl.mNumberBuffers
  · rw [if_pos hi]
    dsimp only
    by_cases hc : d ≤ p ∧ p < d + min c (u32sub (abl.mBuffers i).mDataByteSize d)
    · rw [if_pos hc, if_pos ⟨hi, hc.1, hc.2⟩]
    · rw [if_neg hc, if_neg (by tauto)]
  · rw [if_neg hi, if_neg (by tauto)]

theorem StoreABL_eq (buffers : Nat → Nat → Nat) (d : Nat) (abl : AudioBufferList)
    (s c i p : Nat) :
    StoreABL buffers d abl s c i p =
      if i < abl.mNumberBuffers ∧ d ≤ p ∧
          p < d + min c (u32sub (abl.mBuffers i).mDataByteSize s) then
        (abl.mBuffers i).mData (s + (p - d))
      else buffers i p := rfl

theorem audioRead_partial (rb : AudioRingBuffer) (abl : AudioBufferList) (n : Nat) (h : rb.WF)
    (hlt : rb.FramesAvailableToRead < n)
    (hsz : ∀ i, i < abl.mNumberBuffers →
      n * rb.mFormat.mBytesPerFrame ≤ (abl.mBuffers i).mDataByteSize ∧
      (abl.mBuffers i).mDataByteSize < U32) :
    (rb.Read abl n true).1 = rb.FramesAvailableToRead ∧
    (rb.Read abl n true).2.2 = { rb with mReadPointer :=
        (rb.mReadPointer + rb.FramesAvailableToRead) % rb.mCapacityFrames } ∧
    (rb.Read abl n true).2.1.mNumberBuffers = abl.mNumberBuffers ∧
    (∀ i, i < abl.mNumberBuffers →
      (0 < rb.FramesAvailableToRead →
        ((rb.Read abl n true).2.1.mBuffers i).mDataByteSize
          = rb.FramesAvailableToRead * rb.mFormat.mBytesPerFrame) ∧
      (∀ q, q < rb.FramesAvailableToRead * rb.mFormat.mBytesPerFrame →
        ((rb.Read abl n true).2.1.mBuffers i).mData q
          = rb.mBuffers i ((rb.mReadPointer * rb.mFormat.mBytesPerFrame + q)
              % (rb.mCapacityFrames * rb.mFormat.mBytesPerFrame))) ∧
      (∀ q, rb.FramesAvailableToRead * rb.mFormat.mBytesPerFrame ≤ q →
        ((rb.Read abl n true).2.1.mBuffers i).mData q = (abl.mBuffers i).mData q)) ∧
    (∀ i, abl.mNumberBuffers ≤ i → (rb.Read abl n true).2.1.mBuffers i = abl.mBuffers i) := by
  have hAcap := framesAvailRead_lt_cap rb h
  obtain ⟨⟨k, hk, hcap⟩, hmask, h2, hr, hw⟩ := h.imp id id
  have hn : ¬(n = 0) := by omega
  have hA : (if rb.mWritePointer > rb.mReadPointer then rb.mWritePointer - rb.mReadPointer
      else (u32 (u32sub rb.mWritePointer rb.mReadPointer + rb.mCapacityFrames)) &&&
        rb.mCapacityFramesMask) = rb.FramesAvailableToRead := rfl
  rcases Nat.eq_zero_or_pos rb.FramesAvailableToRead with h0 | h0
  · have hguard : rb.FramesAvailableToRead = 0 ∨
        (rb.FramesAvailableToRead < n ∧ true = false) := Or.inl h0
    simp only [AudioRingBuffer.Read, hA, if_neg hn, if_pos hguard]
    refine ⟨h0.symm, ?_, by trivial, ?_, ?_⟩
    · rw [h0, Nat.add_zero, Nat.mod_eq_of_lt hr]
    · intro i hi
      refine ⟨fun hpos => absurd hpos (by omega), ?_, ?_⟩
      · intro q hq
        rw [h0, Nat.zero_mul] at hq
        exact absurd hq (Nat.not_lt_zero q)
      · intro q hq; trivial
    · intro i hi; trivial
  · have hguard : ¬(rb.FramesAvailableToRead = 0 ∨
        (rb.FramesAvailableToRead < n ∧ true = false)) := by
      rintro (hc | ⟨-, hc⟩)
      · omega
      · exact Bool.noConfusion hc
    have hmin : min rb.FramesAvailableToRead n = rb.FramesAvailableToRead :=
      Nat.min_eq_left (Nat.le_of_lt hlt)
    have f3 : rb.FramesAvailableToRead * rb.mFormat.mBytesPerFrame
        ≤ rb.mCapacityFrames * rb.mFormat.mBytesPerFrame :=
      Nat.mul_le_mul_right _ (Nat.le_of_lt hAcap)
    have f4 : rb.mReadPointer * rb.mFormat.mBytesPerFrame
        ≤ rb.mCapacityFrames * rb.mFormat.mBytesPerFrame :=
      Nat.mul_le_mul_right _ (Nat.le_of_lt hr)
    simp only [AudioRingBuffer.Read, hA, if_neg hn, if_neg hguard, hmin]
    refine ⟨by trivial, ?_, ?_, ?_, ?_⟩
    · rw [hmask, u32_land_mask _ _ k hcap (by omega)]
    · split <;> simp only [FetchABL_numBuffers]
    · intro i hi
      obtain ⟨hsz1, hsz2⟩ := hsz i hi
      have hAsz : rb.FramesAvailableToRead * rb.mFormat.mBytesPerFrame
          ≤ (abl.mBuffers i).mDataByteSize :=
        le_trans (Nat.mul_le_mul_right _ (Nat.le_of_lt hlt)) hsz1
      have e0 : u32sub (abl.mBuffers i).mDataByteSize 0 = (abl.mBuffers i).mDataByteSize := by
        rw [u32sub_small _ _ (Nat.zero_le _) hsz2, Nat.sub_zero]
      refine ⟨?_, ?_, ?_⟩
      · intro hpos
        split <;> (simp only [FetchABL_numBuffers]; rw [if_pos hi])
      · intro q hq
        split
        · rename_i hwrap
          have f1 : (rb.mCapacityFrames - rb.mReadPointer) * rb.mFormat.mBytesPerFrame
              + rb.mReadPointer * rb.mFormat.mBytesPerFrame
              = rb.mCapacityFrames * rb.mFormat.mBytesPerFrame := by
            rw [← Nat.add_mul, Nat.sub_add_cancel (Nat.le_of_lt hr)]
          have f2 : (rb.FramesAvailableToRead - (rb.mCapacityFrames - rb.mReadPointer))
                * rb.mFormat.mBytesPerFrame
              + (rb.mCapacityFrames - rb.mReadPointer) * rb.mFormat.mBytesPerFrame
              = rb.FramesAvailableToRead * rb.mFormat.mBytesPerFrame := by
            rw [← Nat.add_mul, Nat.sub_add_cancel (by omega)]
          have hle1 : (rb.mCapacityFrames - rb.mReadPointer) * rb.mFormat.mBytesPerFrame
              ≤ (abl.mBuffers i).mDataByteSize := by
            refine le_trans ?_ hAsz
            exact Nat.mul_le_mul_right _ (by omega)
          have eL : u32sub (abl.mBuffers i).mDataByteSize
                ((rb.mCapacityFrames - rb.mReadPointer) * rb.mFormat.mBytesPerFrame)
              = (abl.mBuffers i).mDataByteSize
                - (rb.mCapacityFrames - rb.mReadPointer) * rb.mFormat.mBytesPerFrame :=
            u32sub_small _ _ hle1 hsz2
          have m1 : min ((rb.mCapacityFrames - rb.mReadPointer) * rb.mFormat.mBytesPerFrame)
                (abl.mBuffers i).mDataByteSize
              = (rb.mCapacityFrames - rb.mReadPointer) * rb.mFormat.mBytesPerFrame :=
            Nat.min_eq_left hle1
          have m2 : min ((rb.FramesAvailableToRead - (rb.mCapacityFrames - rb.mReadPointer))
                  * rb.mFormat.mBytesPerFrame)
                ((abl.mBuffers i).mDataByteSize
                  - (rb.mCapacityFrames - rb.mReadPointer) * rb.mFormat.mBytesPerFrame)
              = (rb.FramesAvailableToRead - (rb.mCapacityFrames - rb.mReadPointer))
                  * rb.mFormat.mBytesPerFrame :=
            Nat.min_eq_left (by omega)
          simp only [FetchABL_numBuffers]
          rw [if_pos hi]
          dsimp only
          simp only [FetchABL_data, FetchABL_numBuffers, FetchABL_size, e0, eL, m1, m2]
          rcases Nat.lt_or_ge q
              ((rb.mCapacityFrames - rb.mReadPointer) * rb.mFormat.mBytesPerFrame) with hq1 | hq1
          · rw [if_neg (by rintro ⟨-, hc1, -⟩; omega), if_pos ⟨hi, by omega, by omega⟩,
              Nat.mod_eq_of_lt (by omega)]
            all_goals exact congrArg _ (by omega)
          · rw [if_pos ⟨hi, by omega, by omega⟩,
              Nat.mod_eq_sub_mod (by omega), Nat.mod_eq_of_lt (by omega)]
            exact congrArg _ (by omega)
        · rename_i hnowrap
          have f5 : (rb.mReadPointer + rb.FramesAvailableToRead) * rb.mFormat.mBytesPerFrame
              ≤ rb.mCapacityFrames * rb.mFormat.mBytesPerFrame :=
            Nat.mul_le_mul_right _ (by omega)
          rw [Nat.add_mul] at f5
          have m3 : min (rb.FramesAvailableToRead * rb.mFormat.mBytesPerFrame)
                (abl.mBuffers i).mDataByteSize
              = rb.FramesAvailableToRead * rb.mFormat.mBytesPerFrame :=
            Nat.min_eq_left hAsz
          simp only [FetchABL_numBuffers]
          rw [if_pos hi]
          dsimp only
          simp only [FetchABL_data, FetchABL_numBuffers, FetchABL_size, e0, m3]
          rw [if_pos ⟨hi, by omega, by omega⟩, Nat.mod_eq_of_lt (by omega)]
          all_goals exact congrArg _ (by omega)
      · intro q hq
        split
        · rename_i hwrap
          have f2 : (rb.FramesAvailableToRead - (rb.mCapacityFrames - rb.mReadPointer))
                * rb.mFormat.mBytesPerFrame
              + (rb.mCapacityFrames - rb.mReadPointer) * rb.mFormat.mBytesPerFrame
              = rb.FramesAvailableToRead * rb.mFormat.mBytesPerFrame := by
            rw [← Nat.add_mul, Nat.sub_add_cancel (by omega)]
          have hle1 : (rb.mCapacityFrames - rb.mReadPointer) * rb.mFormat.mBytesPerFrame
              ≤ (abl.mBuffers i).mDataByteSize := by
            refine le_trans ?_ hAsz
            exact Nat.mul_le_mul_right _ (by omega)
          have eL : u32sub (abl.mBuffers i).mDataByteSize
                ((rb.mCapacityFrames - rb.mReadPointer) * rb.mFormat.mBytesPerFrame)
              = (abl.mBuffers i).mDataByteSize
                - (rb.mCapacityFrames - rb.mReadPointer) * rb.mFormat.mBytesPerFrame :=
            u32sub_small _ _ hle1 hsz2
          have m1 : min ((rb.mCapacityFrames - rb.mReadPointer) * rb.mFormat.mBytesPerFrame)
                (abl.mBuffers i).mDataByteSize
              = (rb.mCapacityFrames - rb.mReadPointer) * rb.mFormat.mBytesPerFrame :=
            Nat.min_eq_left hle1
          have m2 : min ((rb.FramesAvailableToRead - (rb.mCapacityFrames - rb.mReadPointer))
                  * rb.mFormat.mBytesPerFrame)
                ((abl.mBuffers i).mDataByteSize
                  - (rb.mCapacityFrames - rb.mReadPointer) * rb.mFormat.mBytesPerFrame)
              = (rb.FramesAvailableToRead - (rb.mCapacityFrames - rb.mReadPointer))
                  * rb.mFormat.mBytesPerFrame :=
            Nat.min_eq_left (by omega)
          simp only [FetchABL_numBuffers]
          rw [if_pos hi]
          dsimp only
          simp only [FetchABL_data, FetchABL_numBuffers, FetchABL_size, e0, eL, m1, m2]
          rw [if_neg (by rintro ⟨-, -, hc2⟩; omega), if_neg (by
            rintro ⟨-, -, hc2⟩
            have hL : (rb.mCapacityFrames - rb.mReadPointer) * rb.mFormat.mBytesPerFrame
                ≤ rb.FramesAvailableToRead * rb.mFormat.mBytesPerFrame :=
              Nat.mul_le_mul_right _ (by omega)
            omega)]
        · rename_i hnowrap
          have m3 : min (rb.FramesAvailableToRead * rb.mFormat.mBytesPerFrame)
                (abl.mBuffers i).mDataByteSize
              = rb.FramesAvailableToRead * rb.mFormat.mBytesPerFrame :=
            Nat.min_eq_left hAsz
          simp only [FetchABL_numBuffers]
          rw [if_pos hi]
          dsimp only
          simp only [FetchABL_data, FetchABL_numBuffers, FetchABL_size, e0, m3]
          rw [if_neg (by rintro ⟨-, -, hc2⟩; omega)]
    · intro i hi
      have hni : ¬(i < abl.mNumberBuffers) := by omega
      split <;>
        (simp only [FetchABL_numBuffers]
         rw [if_neg hni]
         first
          | rw [FetchABL_buffers_ge _ _ _ _ _ _ (by rw [FetchABL_numBuffers]; exact hni),
              FetchABL_buffers_ge _ _ _ _ _ _ hni]
          | rw [FetchABL_buffers_ge _ _ _ _ _ _ hni])

theorem audioWrite_partial (rb : AudioRingBuffer) (abl : AudioBufferList) (n : Nat) (h : rb.WF)
    (hlt : rb.FramesAvailableToWrite < n)
    (hsz : ∀ i, i < abl.mNumberBuffers →
      n * rb.mFormat.mBytesPerFrame ≤ (abl.mBuffers i).mDataByteSize ∧
      (abl.mBuffers i).mDataByteSize < U32) :
    (rb.Write abl n true).1 = rb.FramesAvailableToWrite ∧
    (rb.Write abl n true).2.mWritePointer
      = (rb.mWritePointer + rb.FramesAvailableToWrite) % rb.mCapacityFrames ∧
    (rb.Write abl n true).2.mReadPointer = rb.mReadPointer ∧
    (rb.Write abl n true).2.mCapacityFrames = rb.mCapacityFrames ∧
    (∀ i, i < abl.mNumberBuffers → ∀ q,
      q < rb.mCapacityFrames * rb.mFormat.mBytesPerFrame →
      (rb.Write abl n true).2.mBuffers i q =
        if (q + rb.mCapacityFrames * rb.mFormat.mBytesPerFrame
              - rb.mWritePointer * rb.mFormat.mBytesPerFrame)
            % (rb.mCapacityFrames * rb.mFormat.mBytesPerFrame)
            < rb.FramesAvailableToWrite * rb.mFormat.mBytesPerFrame
        then (abl.mBuffers i).mData
          ((q + rb.mCapacityFrames * rb.mFormat.mBytesPerFrame
              - rb.mWritePointer * rb.mFormat.mBytesPerFrame)
            % (rb.mCapacityFrames * rb.mFormat.mBytesPerFrame))
        else rb.mBuffers i q) ∧
    (∀ i, i < abl.mNumberBuffers → ∀ q,
      rb.mCapacityFrames * rb.mFormat.mBytesPerFrame ≤ q →
      (rb.Write abl n true).2.mBuffers i q = rb.mBuffers i q) ∧
    (∀ i, abl.mNumberBuffers ≤ i → ∀ q,
      (rb.Write abl n true).2.mBuffers i q = rb.mBuffers i q) := by
  have hWcap := framesAvailWrite_lt_cap rb h
  obtain ⟨⟨k, hk, hcap⟩, hmask, h2, hr, hw⟩ := h.imp id id
  have hn : ¬(n = 0) := by omega
  have hA : (if rb.mWritePointer > rb.mReadPointer then
      ((u32 (u32sub rb.mReadPointer rb.mWritePointer + rb.mCapacityFrames)) &&&
        rb.mCapacityFramesMask) - 1
      else if rb.mWritePointer < rb.mReadPointer then rb.mReadPointer - rb.mWritePointer - 1
      else rb.mCapacityFrames - 1) = rb.FramesAvailableToWrite := rfl
  rcases Nat.eq_zero_or_pos rb.FramesAvailableToWrite with h0 | h0
  · have hguard : rb.FramesAvailableToWrite = 0 ∨
        (rb.FramesAvailableToWrite < n ∧ true = false) := Or.inl h0
    simp only [AudioRingBuffer.Write, hA, if_neg hn, if_pos hguard]
    refine ⟨h0.symm, ?_, by trivial, by trivial, ?_, ?_, ?_⟩
    · rw [h0, Nat.add_zero, Nat.mod_eq_of_lt hw]
    · intro i hi q hq
      rw [h0, Nat.zero_mul, if_neg (Nat.not_lt_zero _)]
    · intro i hi q hq; trivial
    · intro i hi q; trivial
  · have hguard : ¬(rb.FramesAvailableToWrite = 0 ∨
        (rb.FramesAvailableToWrite < n ∧ true = false)) := by
      rintro (hc | ⟨-, hc⟩)
      · omega
      · exact Bool.noConfusion hc
    have hmin : min rb.FramesAvailableToWrite n = rb.FramesAvailableToWrite :=
      Nat.min_eq_left (Nat.le_of_lt hlt)
    have f3 : rb.FramesAvailableToWrite * rb.mFormat.mBytesPerFrame
        ≤ rb.mCapacityFrames * rb.mFormat.mBytesPerFrame :=
      Nat.mul_le_mul_right _ (Nat.le_of_lt hWcap)
    have f4 : rb.mWritePointer * rb.mFormat.mBytesPerFrame
        ≤ rb.mCapacityFrames * rb.mFormat.mBytesPerFrame :=
      Nat.mul_le_mul_right _ (Nat.le_of_lt hw)
    simp only [AudioRingBuffer.Write, hA, if_neg hn, if_neg hguard, hmin]
    refine ⟨by trivial, ?_, by trivial, by trivial, ?_, ?_, ?_⟩
    · rw [hmask, u32_land_mask _ _ k hcap (by omega)]
    · intro i hi q hq
      obtain ⟨hsz1, hsz2⟩ := hsz i hi
      have hWsz : rb.FramesAvailableToWrite * rb.mFormat.mBytesPerFrame
          ≤ (abl.mBuffers i).mDataByteSize :=
        le_trans (Nat.mul_le_mul_right _ (Nat.le_of_lt hlt)) hsz1
      have e0 : u32sub (abl.mBuffers i).mDataByteSize 0 = (abl.mBuffers i).mDataByteSize := by
        rw [u32sub_small _ _ (Nat.zero_le _) hsz2, Nat.sub_zero]
      split
      · rename_i hwrap
        have f1 : (rb.mCapacityFrames - rb.mWritePointer) * rb.mFormat.mBytesPerFrame
            + rb.mWritePointer * rb.mFormat.mBytesPerFrame
            = rb.mCapacityFrames * rb.mFormat.mBytesPerFrame := by
          rw [← Nat.add_mul, Nat.sub_add_cancel (Nat.le_of_lt hw)]
        have f2 : (rb.FramesAvailableToWrite - (rb.mCapacityFrames - rb.mWritePointer))
              * rb.mFormat.mBytesPerFrame
            + (rb.mCapacityFrames - rb.mWritePointer) * rb.mFormat.mBytesPerFrame
            = rb.FramesAvailableToWrite * rb.mFormat.mBytesPerFrame := by
          rw [← Nat.add_mul, Nat.sub_add_cancel (by omega)]
        have hle1 : (rb.mCapacityFrames - rb.mWritePointer) * rb.mFormat.mBytesPerFrame
            ≤ (abl.mBuffers i).mDataByteSize := by
          refine le_trans ?_ hWsz
          exact Nat.mul_le_mul_right _ (by omega)
        have eL : u32sub (abl.mBuffers i).mDataByteSize
              ((rb.mCapacityFrames - rb.mWritePointer) * rb.mFormat.mBytesPerFrame)
            = (abl.mBuffers i).mDataByteSize
              - (rb.mCapacityFrames - rb.mWritePointer) * rb.mFormat.mBytesPerFrame :=
          u32sub_small _ _ hle1 hsz2
        have m1 : min ((rb.mCapacityFrames - rb.mWritePointer) * rb.mFormat.mBytesPerFrame)
              (abl.mBuffers i).mDataByteSize
            = (rb.mCapacityFrames - rb.mWritePointer) * rb.mFormat.mBytesPerFrame :=
          Nat.min_eq_left hle1
        have m2 : min ((rb.FramesAvailableToWrite - (rb.mCapacityFrames - rb.mWritePointer))
                * rb.mFormat.mBytesPerFrame)
              ((abl.mBuffers i).mDataByteSize
                - (rb.mCapacityFrames - rb.mWritePointer) * rb.mFormat.mBytesPerFrame)
            = (rb.FramesAvailableToWrite - (rb.mCapacityFrames - rb.mWritePointer))
                * rb.mFormat.mBytesPerFrame :=
          Nat.min_eq_left (by omega)
        simp only [StoreABL_eq, e0, eL, m1, m2]
        rcases Nat.lt_or_ge q (rb.mWritePointer * rb.mFormat.mBytesPerFrame) with hq1 | hq1
        · have ho : (q + rb.mCapacityFrames * rb.mFormat.mBytesPerFrame
                - rb.mWritePointer * rb.mFormat.mBytesPerFrame)
                % (rb.mCapacityFrames * rb.mFormat.mBytesPerFrame)
              = q + rb.mCapacityFrames * rb.mFormat.mBytesPerFrame
                - rb.mWritePointer * rb.mFormat.mBytesPerFrame :=
            Nat.mod_eq_of_lt (by omega)
          rw [ho]
          rcases Nat.lt_or_ge q ((rb.FramesAvailableToWrite
              - (rb.mCapacityFrames - rb.mWritePointer)) * rb.mFormat.mBytesPerFrame)
            with hq2 | hq2
          · rw [if_pos ⟨hi, by omega, by omega⟩, if_pos (by omega)]
            exact congrArg _ (by omega)
          · rw [if_neg (by rintro ⟨-, -, hc⟩; omega),
              if_neg (by rintro ⟨-, hc, -⟩; omega), if_neg (by omega)]
        · have ho : (q + rb.mCapacityFrames * rb.mFormat.mBytesPerFrame
                - rb.mWritePointer * rb.mFormat.mBytesPerFrame)
                % (rb.mCapacityFrames * rb.mFormat.mBytesPerFrame)
              = q - rb.mWritePointer * rb.mFormat.mBytesPerFrame := by
            rw [show q + rb.mCapacityFrames * rb.mFormat.mBytesPerFrame
                  - rb.mWritePointer * rb.mFormat.mBytesPerFrame
                = (q - rb.mWritePointer * rb.mFormat.mBytesPerFrame)
                  + rb.mCapacityFrames * rb.mFormat.mBytesPerFrame by omega,
              Nat.add_mod_right]
            exact Nat.mod_eq_of_lt (by omega)
          rw [ho, if_neg (by rintro ⟨-, -, hc⟩; omega), if_pos ⟨hi, by omega, by omega⟩,
            if_pos (by omega)]
          exact congrArg _ (by omega)
      · rename_i hnowrap
        have m3 : min (rb.FramesAvailableToWrite * rb.mFormat.mBytesPerFrame)
              (abl.mBuffers i).mDataByteSize
            = rb.FramesAvailableToWrite * rb.mFormat.mBytesPerFrame :=
          Nat.min_eq_left hWsz
        have f5 : (rb.mWritePointer + rb.FramesAvailableToWrite) * rb.mFormat.mBytesPerFrame
            ≤ rb.mCapacityFrames * rb.mFormat.mBytesPerFrame :=
          Nat.mul_le_mul_right _ (by omega)
        rw [Nat.add_mul] at f5
        simp only [StoreABL_eq, e0, m3]
        rcases Nat.lt_or_ge q (rb.mWritePointer * rb.mFormat.mBytesPerFrame) with hq1 | hq1
        · have ho : (q + rb.mCapacityFrames * rb.mFormat.mBytesPerFrame
                - rb.mWritePointer * rb.mFormat.mBytesPerFrame)
                % (rb.mCapacityFrames * rb.mFormat.mBytesPerFrame)
              = q + rb.mCapacityFrames * rb.mFormat.mBytesPerFrame
                - rb.mWritePointer * rb.mFormat.mBytesPerFrame :=
            Nat.mod_eq_of_lt (by omega)
          rw [ho, if_neg (by rintro ⟨-, hc, -⟩; omega), if_neg (by omega)]
        · have ho : (q + rb.mCapacityFrames * rb.mFormat.mBytesPerFrame
                - rb.mWritePointer * rb.mFormat.mBytesPerFrame)
                % (rb.mCapacityFrames * rb.mFormat.mBytesPerFrame)
              = q - rb.mWritePointer * rb.mFormat.mBytesPerFrame := by
            rw [show q + rb.mCapacityFrames * rb.mFormat.mBytesPerFrame
                  - rb.mWritePointer * rb.mFormat.mBytesPerFrame
                = (q - rb.mWritePointer * rb.mFormat.mBytesPerFrame)
                  + rb.mCapacityFrames * rb.mFormat.mBytesPerFrame by omega,
              Nat.add_mod_right]
            exact Nat.mod_eq_of_lt (by omega)
          rw [ho]
          rcases Nat.lt_or_ge q (rb.mWritePointer * rb.mFormat.mBytesPerFrame
              + rb.FramesAvailableToWrite * rb.mFormat.mBytesPerFrame) with hq2 | hq2
          · rw [if_pos ⟨hi, by omega, by omega⟩, if_pos (by omega)]
            exact congrArg _ (by omega)
          · rw [if_neg (by rintro ⟨-, -, hc⟩; omega), if_neg (by omega)]
    · intro i hi q hq
      obtain ⟨hsz1, hsz2⟩ := hsz i hi
      split
      · rename_i hwrap
        have f2 : (rb.FramesAvailableToWrite - (rb.mCapacityFrames - rb.mWritePointer))
              * rb.mFormat.mBytesPerFrame
            + (rb.mCapacityFrames - rb.mWritePointer) * rb.mFormat.mBytesPerFrame
            = rb.FramesAvailableToWrite * rb.mFormat.mBytesPerFrame := by
          rw [← Nat.add_mul, Nat.sub_add_cancel (by omega)]
        simp only [StoreABL_eq]
        rw [if_neg (by
            rintro ⟨-, -, hc⟩
            have h5 : min ((rb.FramesAvailableToWrite
                  - (rb.mCapacityFrames - rb.mWritePointer)) * rb.mFormat.mBytesPerFrame)
                (u32sub (abl.mBuffers i).mDataByteSize
                  ((rb.mCapacityFrames - rb.mWritePointer) * rb.mFormat.mBytesPerFrame))
              ≤ (rb.FramesAvailableToWrite - (rb.mCapacityFrames - rb.mWritePointer))
                  * rb.mFormat.mBytesPerFrame := Nat.min_le_left _ _
            omega),
          if_neg (by
            rintro ⟨-, hc1, hc2⟩
            have h5 : min ((rb.mCapacityFrames - rb.mWritePointer) * rb.mFormat.mBytesPerFrame)
                (u32sub (abl.mBuffers i).mDataByteSize 0)
              ≤ (rb.mCapacityFrames - rb.mWritePointer) * rb.mFormat.mBytesPerFrame :=
              Nat.min_le_left _ _
            have f1 : (rb.mCapacityFrames - rb.mWritePointer) * rb.mFormat.mBytesPerFrame
                + rb.mWritePointer * rb.mFormat.mBytesPerFrame
                = rb.mCapacityFrames * rb.mFormat.mBytesPerFrame := by
              rw [← Nat.add_mul, Nat.sub_add_cancel (Nat.le_of_lt hw)]
            omega)]
      · rename_i hnowrap
        have f5 : (rb.mWritePointer + rb.FramesAvailableToWrite) * rb.mFormat.mBytesPerFrame
            ≤ rb.mCapacityFrames * rb.mFormat.mBytesPerFrame :=
          Nat.mul_le_mul_right _ (by omega)
        rw [Nat.add_mul] at f5
        simp only [StoreABL_eq]
        rw [if_neg (by
            rintro ⟨-, hc1, hc2⟩
            have h5 : min (rb.FramesAvailableToWrite * rb.mFormat.mBytesPerFrame)
                (u32sub (abl.mBuffers i).mDataByteSize 0)
              ≤ rb.FramesAvailableToWrite * rb.mFormat.mBytesPerFrame := Nat.min_le_left _ _
            omega)]
    · intro i hi q
      have hni : ¬(i < abl.mNumberBuffers) := by omega
      split
      · simp only [StoreABL_eq]
        rw [if_neg (by rintro ⟨hc, -⟩; exact hni hc),
          if_neg (by rintro ⟨hc, -⟩; exact hni hc)]
      · simp only [StoreABL_eq]
        rw [if_neg (by rintro ⟨hc, -⟩; exact hni hc)]

theorem size_eq (n k : Nat) (h1 : 2 ^ k ≤ n) (h2 : n < 2 ^ (k + 1)) : Nat.size n = k + 1 := by
  refine le_antisymm (Nat.size_le.2 h2) ?_
  by_contra hcon
  push_neg at hcon
  have hle : Nat.size n ≤ k := by omega
  exact absurd (Nat.size_le.1 hle) (by omega)

theorem NextPowerOfTwo_four : NextPowerOfTwo 4 = 4 := by
  rw [NextPowerOfTwo_eq 4 (by norm_num) (by norm_num)]
  norm_num [size_eq 3 1 (by norm_num) (by norm_num)]

theorem NextPowerOfTwo_five : NextPowerOfTwo 5 = 8 := by
  rw [NextPowerOfTwo_eq 5 (by norm_num) (by norm_num)]
  norm_num [size_eq 4 2 (by norm_num) (by norm_num)]

theorem NextPowerOfTwo_eight : NextPowerOfTwo 8 = 8 := by
  rw [NextPowerOfTwo_eq 8 (by norm_num) (by norm_num)]
  norm_num [size_eq 7 2 (by norm_num) (by norm_num)]

/-- C3: for every state of a byte ring buffer reachable from a successful
Allocate by any sequence of Read/Write calls, BytesAvailableToRead plus
BytesAvailableToWrite equals capacity minus one, and likewise for the frame
ring buffer with FramesAvailableToRead and FramesAvailableToWrite: the
reserved sentinel unit is never writable. -/
theorem C3_availability_invariant
    (c : Nat) (rb0 : RingBuffer) (hb : RingBuffer.Allocate c = some rb0) (ops : List RBOp)
    (fmt : CAStreamBasicDescription) (cf : Nat) (arb0 : AudioRingBuffer)
    (ha : AudioRingBuffer.Allocate fmt cf = some arb0) (aops : List ARBOp) :
    (applyRBOps rb0 ops).BytesAvailableToRead + (applyRBOps rb0 ops).BytesAvailableToWrite
      = (applyRBOps rb0 ops).mCapacityBytes - 1 ∧
    (applyARBOps arb0 aops).FramesAvailableToRead
        + (applyARBOps arb0 aops).FramesAvailableToWrite
      = (applyARBOps arb0 aops).mCapacityFrames - 1 :=
  ⟨avail_sum _ (applyRBOps_WF ops rb0 (Allocate_WF c rb0 hb)),
   frames_avail_sum _ (applyARBOps_WF aops arb0 (audioAllocate_WF fmt cf arb0 ha))⟩

theorem C3_availability_invariant_witness :
    ((applyRBOps ⟨4, 3, fun _ => 0, 0, 0⟩
        [.write (fun _ => 7) 3 false, .read 2 true]).BytesAvailableToRead
      + (applyRBOps ⟨4, 3, fun _ => 0, 0, 0⟩
        [.write (fun _ => 7) 3 false, .read 2 true]).BytesAvailableToWrite
      = (applyRBOps ⟨4, 3, fun _ => 0, 0, 0⟩
        [.write (fun _ => 7) 3 false, .read 2 true]).mCapacityBytes - 1) ∧
    ((applyARBOps ⟨⟨32, 1, 1⟩, 4, 3, fun _ _ => 0, 0, 0⟩
        [.write ⟨1, fun _ => ⟨4, fun _ => 9⟩⟩ 2 false]).FramesAvailableToRead
      + (applyARBOps ⟨⟨32, 1, 1⟩, 4, 3, fun _ _ => 0, 0, 0⟩
        [.write ⟨1, fun _ => ⟨4, fun _ => 9⟩⟩ 2 false]).FramesAvailableToWrite
      = (applyARBOps ⟨⟨32, 1, 1⟩, 4, 3, fun _ _ => 0, 0, 0⟩
        [.write ⟨1, fun _ => ⟨4, fun _ => 9⟩⟩ 2 false]).mCapacityFrames - 1) := by
  have hb4 : RingBuffer.Allocate 4 = some ⟨4, 3, fun _ => 0, 0, 0⟩ := by
    unfold RingBuffer.Allocate
    rw [if_neg (by norm_num)]
    rw [NextPowerOfTwo_four]
  have ha4 : AudioRingBuffer.Allocate ⟨32, 1, 1⟩ 4
      = some ⟨⟨32, 1, 1⟩, 4, 3, fun _ _ => 0, 0, 0⟩ := by
    unfold AudioRingBuffer.Allocate
    rw [if_neg (by norm_num [CAStreamBasicDescription.IsInterleaved,
      kAudioFormatFlagIsNonInterleaved])]
    rw [NextPowerOfTwo_four]
  have h := C3_availability_invariant 4 ⟨4, 3, fun _ => 0, 0, 0⟩ hb4
    [RBOp.write (fun _ => 7) 3 false, RBOp.read 2 true]
    ⟨32, 1, 1⟩ 4 ⟨⟨32, 1, 1⟩, 4, 3, fun _ _ => 0, 0, 0⟩ ha4
    [ARBOp.write ⟨1, fun _ => ⟨4, fun _ => 9⟩⟩ 2 false]
  exact h

/-- C9: for every requested capacity c with 2 ≤ c ≤ 2^31, the byte ring
buffer Allocate succeeds (when the underlying allocation succeeds, which the
model assumes) with actual capacity the smallest power of two greater than
or equal to c, and likewise the frame ring buffer Allocate with a valid
non-interleaved format; requests with c < 2 or c > 2^31 return false. -/
theorem C9_capacity_rounding (c : Nat) (fmt : CAStreamBasicDescription)
    (hfmt : fmt.IsInterleaved = false) :
    (2 ≤ c → c ≤ 2 ^ 31 →
      ∃ rb, RingBuffer.Allocate c = some rb ∧
        (∃ k, rb.mCapacityBytes = 2 ^ k) ∧ c ≤ rb.mCapacityBytes ∧
        (∀ m, (∃ j, m = 2 ^ j) → c ≤ m → rb.mCapacityBytes ≤ m) ∧
        ∃ arb, AudioRingBuffer.Allocate fmt c = some arb ∧
          arb.mCapacityFrames = rb.mCapacityBytes) ∧
    ((c < 2 ∨ c > 2 ^ 31) →
      RingBuffer.Allocate c = none ∧ AudioRingBuffer.Allocate fmt c = none) := by
  constructor
  · intro h2 h31
    have hno : ¬(c < 2 ∨ c > 2 ^ 31) := by omega
    refine ⟨{ mCapacityBytes := NextPowerOfTwo c, mCapacityBytesMask := NextPowerOfTwo c - 1,
              mBuffer := fun _ => 0, mReadPosition := 0, mWritePosition := 0 },
      ?_, ⟨Nat.size (c - 1), NextPowerOfTwo_eq c h2 h31⟩, NextPowerOfTwo_ge c h2 h31, ?_,
      { mFormat := fmt, mCapacityFrames := NextPowerOfTwo c,
        mCapacityFramesMask := NextPowerOfTwo c - 1,
        mBuffers := fun _ _ => 0, mReadPointer := 0, mWritePointer := 0 }, ?_, rfl⟩
    · unfold RingBuffer.Allocate
      rw [if_neg hno]
    · rintro m ⟨j, rfl⟩ hm
      exact NextPowerOfTwo_min c j h2 h31 hm
    · unfold AudioRingBuffer.Allocate
      rw [if_neg (by simp only [hfmt]; simp; omega)]
  · intro hc
    constructor
    · unfold RingBuffer.Allocate
      rw [if_pos hc]
    · unfold AudioRingBuffer.Allocate
      rw [if_pos (Or.inr hc)]

theorem C9_capacity_rounding_witness :
    (∃ rb, RingBuffer.Allocate 5 = some rb ∧
      (∃ k, rb.mCapacityBytes = 2 ^ k) ∧ 5 ≤ rb.mCapacityBytes ∧
      (∀ m, (∃ j, m = 2 ^ j) → 5 ≤ m → rb.mCapacityBytes ≤ m) ∧
      ∃ arb, AudioRingBuffer.Allocate (⟨32, 4, 2⟩ : CAStreamBasicDescription) 5 = some arb ∧
        arb.mCapacityFrames = rb.mCapacityBytes) ∧
    RingBuffer.Allocate 1 = none ∧
    AudioRingBuffer.Allocate (⟨32, 4, 2⟩ : CAStreamBasicDescription) 1 = none := by
  refine ⟨(C9_capacity_rounding 5 ⟨32, 4, 2⟩ rfl).1 (by norm_num) (by norm_num),
    ((C9_capacity_rounding 1 ⟨32, 4, 2⟩ rfl).2 (by norm_num)).1,
    ((C9_capacity_rounding 1 ⟨32, 4, 2⟩ rfl).2 (by norm_num)).2⟩

/-- C2: for byte ring buffer Read/Write and frame ring buffer Read/Write,
when fewer units are available than requested and allowPartial is false the
call returns 0 and is a no-op; when allowPartial is true it returns exactly
the available count (including 0) and transfers exactly that many units:
the destination receives exactly the available units and the consuming or
producing cursor advances by exactly that amount. -/
theorem C2_all_or_nothing_vs_partial
    (rb : RingBuffer) (h : rb.WF) (dst src : Nat → Nat) (n : Nat)
    (arb : AudioRingBuffer) (ha : arb.WF) (ablR ablW : AudioBufferList) (m : Nat)
    (hszR : ∀ i, i < ablR.mNumberBuffers →
      m * arb.mFormat.mBytesPerFrame ≤ (ablR.mBuffers i).mDataByteSize ∧
      (ablR.mBuffers i).mDataByteSize < U32)
    (hszW : ∀ i, i < ablW.mNumberBuffers →
      m * arb.mFormat.mBytesPerFrame ≤ (ablW.mBuffers i).mDataByteSize ∧
      (ablW.mBuffers i).mDataByteSize < U32) :
    (rb.BytesAvailableToRead < n → rb.Read dst n false = (0, dst, rb)) ∧
    (rb.BytesAvailableToWrite < n → rb.Write src n false = (0, rb)) ∧
    (rb.BytesAvailableToRead < n →
      (rb.Read dst n true).1 = rb.BytesAvailableToRead ∧
      (rb.Read dst n true).2.2 = { rb with mReadPosition :=
          (rb.mReadPosition + rb.BytesAvailableToRead) % rb.mCapacityBytes } ∧
      (∀ q, q < rb.BytesAvailableToRead →
        (rb.Read dst n true).2.1 q = rb.mBuffer ((rb.mReadPosition + q) % rb.mCapacityBytes)) ∧
      (∀ q, rb.BytesAvailableToRead ≤ q → (rb.Read dst n true).2.1 q = dst q)) ∧
    (rb.BytesAvailableToWrite < n →
      (rb.Write src n true).1 = rb.BytesAvailableToWrite ∧
      (rb.Write src n true).2.mWritePosition
        = (rb.mWritePosition + rb.BytesAvailableToWrite) % rb.mCapacityBytes ∧
      (rb.Write src n true).2.mReadPosition = rb.mReadPosition ∧
      (rb.Write src n true).2.mCapacityBytes = rb.mCapacityBytes ∧
      (rb.Write src n true).2.mCapacityBytesMask = rb.mCapacityBytesMask ∧
      (∀ q, q < rb.mCapacityBytes →
        (rb.Write src n true).2.mBuffer q =
          if (q + rb.mCapacityBytes - rb.mWritePosition) % rb.mCapacityBytes
              < rb.BytesAvailableToWrite
          then src ((q + rb.mCapacityBytes - rb.mWritePosition) % rb.mCapacityBytes)
          else rb.mBuffer q) ∧
      (∀ q, rb.mCapacityBytes ≤ q → (rb.Write src n true).2.mBuffer q = rb.mBuffer q)) ∧
    (arb.FramesAvailableToRead < m → arb.Read ablR m false = (0, ablR, arb)) ∧
    (arb.FramesAvailableToWrite < m → arb.Write ablW m false = (0, arb)) ∧
    (arb.FramesAvailableToRead < m →
      (arb.Read ablR m true).1 = arb.FramesAvailableToRead ∧
      (arb.Read ablR m true).2.2 = { arb with mReadPointer :=
          (arb.mReadPointer + arb.FramesAvailableToRead) % arb.mCapacityFrames } ∧
      (arb.Read ablR m true).2.1.mNumberBuffers = ablR.mNumberBuffers ∧
      (∀ i, i < ablR.mNumberBuffers →
        (0 < arb.FramesAvailableToRead →
          ((arb.Read ablR m true).2.1.mBuffers i).mDataByteSize
            = arb.FramesAvailableToRead * arb.mFormat.mBytesPerFrame) ∧
        (∀ q, q < arb.FramesAvailableToRead * arb.mFormat.mBytesPerFrame →
          ((arb.Read ablR m true).2.1.mBuffers i).mData q
            = arb.mBuffers i ((arb.mReadPointer * arb.mFormat.mBytesPerFrame + q)
                % (arb.mCapacityFrames * arb.mFormat.mBytesPerFrame))) ∧
        (∀ q, arb.FramesAvailableToRead * arb.mFormat.mBytesPerFrame ≤ q →
          ((arb.Read ablR m true).2.1.mBuffers i).mData q = (ablR.mBuffers i).mData q)) ∧
      (∀ i, ablR.mNumberBuffers ≤ i →
        (arb.Read ablR m true).2.1.mBuffers i = ablR.mBuffers i)) ∧
    (arb.FramesAvailableToWrite < m →
      (arb.Write ablW m true).1 = arb.FramesAvailableToWrite ∧
      (arb.Write ablW m true).2.mWritePointer
        = (arb.mWritePointer + arb.FramesAvailableToWrite) % arb.mCapacityFrames ∧
      (arb.Write ablW m true).2.mReadPointer = arb.mReadPointer ∧
      (arb.Write ablW m true).2.mCapacityFrames = arb.mCapacityFrames ∧
      (∀ i, i < ablW.mNumberBuffers → ∀ q,
        q < arb.mCapacityFrames * arb.mFormat.mBytesPerFrame →
        (arb.Write ablW m true).2.mBuffers i q =
          if (q + arb.mCapacityFrames * arb.mFormat.mBytesPerFrame
                - arb.mWritePointer * arb.mFormat.mBytesPerFrame)
              % (arb.mCapacityFrames * arb.mFormat.mBytesPerFrame)
              < arb.FramesAvailableToWrite * arb.mFormat.mBytesPerFrame
          then (ablW.mBuffers i).mData
            ((q + arb.mCapacityFrames * arb.mFormat.mBytesPerFrame
                - arb.mWritePointer * arb.mFormat.mBytesPerFrame)
              % (arb.mCapacityFrames * arb.mFormat.mBytesPerFrame))
          else arb.mBuffers i q) ∧
      (∀ i, i < ablW.mNumberBuffers → ∀ q,
        arb.mCapacityFrames * arb.mFormat.mBytesPerFrame ≤ q →
        (arb.Write ablW m true).2.mBuffers i q = arb.mBuffers i q) ∧
      (∀ i, ablW.mNumberBuffers ≤ i → ∀ q,
        (arb.Write ablW m true).2.mBuffers i q = arb.mBuffers i q)) :=
  ⟨fun hlt => byteRead_reject rb dst n hlt,
   fun hlt => byteWrite_reject rb src n hlt,
   fun hlt => byteRead_partial rb dst n h hlt,
   fun hlt => byteWrite_partial rb src n h hlt,
   fun hlt => audioRead_reject arb ablR m hlt,
   fun hlt => audioWrite_reject arb ablW m hlt,
   fun hlt => audioRead_partial arb ablR m ha hlt hszR,
   fun hlt => audioWrite_partial arb ablW m ha hlt hszW⟩

theorem C2_all_or_nothing_vs_partial_witness :
    (RingBuffer.Read ⟨8, 7, fun p => p + 10, 1, 5⟩ (fun _ => 0) 6 false
      = (0, (fun _ => 0), ⟨8, 7, fun p => p + 10, 1, 5⟩)) ∧
    ((RingBuffer.Read ⟨8, 7, fun p => p + 10, 1, 5⟩ (fun _ => 0) 6 true).1
      = RingBuffer.BytesAvailableToRead ⟨8, 7, fun p => p + 10, 1, 5⟩) ∧
    ((RingBuffer.Write ⟨8, 7, fun p => p + 10, 1, 5⟩ (fun p => 100 + p) 6 true).1
      = RingBuffer.BytesAvailableToWrite ⟨8, 7, fun p => p + 10, 1, 5⟩) ∧
    ((AudioRingBuffer.Read ⟨⟨32, 1, 1⟩, 4, 3, fun _ q => q + 20, 3, 1⟩
        ⟨1, fun _ => ⟨3, fun _ => 90⟩⟩ 3 true).1
      = AudioRingBuffer.FramesAvailableToRead ⟨⟨32, 1, 1⟩, 4, 3, fun _ q => q + 20, 3, 1⟩) ∧
    ((AudioRingBuffer.Write ⟨⟨32, 1, 1⟩, 4, 3, fun _ q => q + 20, 3, 1⟩
        ⟨1, fun _ => ⟨3, fun p => 40 + p⟩⟩ 3 true).1
      = AudioRingBuffer.FramesAvailableToWrite ⟨⟨32, 1, 1⟩, 4, 3, fun _ q => q + 20, 3, 1⟩) := by
  have h := C2_all_or_nothing_vs_partial
    ⟨8, 7, fun p => p + 10, 1, 5⟩
    ⟨⟨3, by norm_num, rfl⟩, rfl, by norm_num, by norm_num, by norm_num⟩
    (fun _ => 0) (fun p => 100 + p) 6
    ⟨⟨32, 1, 1⟩, 4, 3, fun _ q => q + 20, 3, 1⟩
    ⟨⟨2, by norm_num, rfl⟩, rfl, by norm_num, by norm_num, by norm_num⟩
    ⟨1, fun _ => ⟨3, fun _ => 90⟩⟩ ⟨1, fun _ => ⟨3, fun p => 40 + p⟩⟩ 3
    (by intro i hi; exact ⟨by norm_num, by norm_num [U32]⟩)
    (by intro i hi; exact ⟨by norm_num, by norm_num [U32]⟩)
  exact ⟨h.1 (by decide), (h.2.2.1 (by decide)).1, (h.2.2.2.1 (by decide)).1,
    (h.2.2.2.2.2.2.1 (by decide)).1, (h.2.2.2.2.2.2.2 (by decide)).1⟩

/-- C7: evaluation of ReadVector and WriteVector at a state reachable from
Allocate(8) in which the readable (resp. writable) region wraps.  With
readPosition 6 and writePosition 2 there are 4 readable bytes, so the claim
expects spans of lengths 2 and 2; the code computes the second length as
endOfRead AND capacityBytes (not the mask), which always yields the full
capacity 8 whenever the region wraps.  The same slip appears in WriteVector. -/
theorem C7_vector_second_span_bug :
    RingBuffer.Allocate 8 = some ⟨8, 7, fun _ => 0, 0, 0⟩ ∧
    (applyRBOps ⟨8, 7, fun _ => 0, 0, 0⟩
      [.write (fun p => p + 1) 6 false, .read 6 false,
       .write (fun p => p + 1) 4 false]).mReadPosition = 6 ∧
    (applyRBOps ⟨8, 7, fun _ => 0, 0, 0⟩
      [.write (fun p => p + 1) 6 false, .read 6 false,
       .write (fun p => p + 1) 4 false]).mWritePosition = 2 ∧
    (applyRBOps ⟨8, 7, fun _ => 0, 0, 0⟩
      [.write (fun p => p + 1) 6 false, .read 6 false,
       .write (fun p => p + 1) 4 false]).BytesAvailableToRead = 4 ∧
    ((applyRBOps ⟨8, 7, fun _ => 0, 0, 0⟩
      [.write (fun p => p + 1) 6 false, .read 6 false,
       .write (fun p => p + 1) 4 false]).ReadVector).1.length = 2 ∧
    ((applyRBOps ⟨8, 7, fun _ => 0, 0, 0⟩
      [.write (fun p => p + 1) 6 false, .read 6 false,
       .write (fun p => p + 1) 4 false]).ReadVector).2.length = 8 ∧
    (applyRBOps ⟨8, 7, fun _ => 0, 0, 0⟩
      [.write (fun p => p + 1) 2 false, .read 2 false,
       .write (fun p => p + 1) 4 false]).BytesAvailableToWrite = 3 ∧
    ((applyRBOps ⟨8, 7, fun _ => 0, 0, 0⟩
      [.write (fun p => p + 1) 2 false, .read 2 false,
       .write (fun p => p + 1) 4 false]).WriteVector).1.length = 2 ∧
    ((applyRBOps ⟨8, 7, fun _ => 0, 0, 0⟩
      [.write (fun p => p + 1) 2 false, .read 2 false,
       .write (fun p => p + 1) 4 false]).WriteVector).2.length = 8 := by
  refine ⟨?_, by decide, by decide, by decide, by decide, by decide, by decide, by decide,
    by decide⟩
  unfold RingBuffer.Allocate
  rw [if_neg (by norm_num), NextPowerOfTwo_eight]

theorem getTimeBoundsLoop_succ_of_WF (st : CARingBuffer) (h : st.queueWF) (fuel : Nat) :
    st.getTimeBoundsLoop (fuel + 1) = some (st.StartTime, st.EndTime) := by
  have h2 : (st.mTimeBoundsQueue
      (st.mTimeBoundsQueueCounter &&& sTimeBoundsQueueMask)).mUpdateCounter
      = st.mTimeBoundsQueueCounter := h
  simp only [CARingBuffer.getTimeBoundsLoop]
  rw [if_pos h2]
  rfl

theorem GetTimeBounds_of_WF (st : CARingBuffer) (h : st.queueWF) :
    st.GetTimeBounds = some (st.StartTime, st.EndTime) :=
  getTimeBoundsLoop_succ_of_WF st h 7

theorem SetTimeBounds_spec (st : CARingBuffer) (s e : Int) :
    (st.SetTimeBounds s e).queueWF ∧ (st.SetTimeBounds s e).StartTime = s ∧
    (st.SetTimeBounds s e).EndTime = e ∧
    (st.SetTimeBounds s e).mBuffers = st.mBuffers ∧
    (st.SetTimeBounds s e).mCapacityFrames = st.mCapacityFrames ∧
    (st.SetTimeBounds s e).mFormat = st.mFormat := by
  unfold CARingBuffer.SetTimeBounds CARingBuffer.queueWF CARingBuffer.StartTime
    CARingBuffer.EndTime
  exact ⟨by simp, by simp, by simp, rfl, rfl, rfl⟩

theorem gapZero_fields (st : CARingBuffer) (s : Int) :
    (st.gapZero s).mTimeBoundsQueue = st.mTimeBoundsQueue ∧
    (st.gapZero s).mTimeBoundsQueueCounter = st.mTimeBoundsQueueCounter ∧
    (st.gapZero s).mCapacityFrames = st.mCapacityFrames ∧
    (st.gapZero s).mFormat = st.mFormat := by
  simp only [CARingBuffer.gapZero]
  repeat' split
  all_goals exact ⟨rfl, rfl, rfl, rfl⟩

theorem storeStage_fields (st : CARingBuffer) (abl : AudioBufferList) (n : Nat) (s : Int) :
    (st.storeStage abl n s).mTimeBoundsQueue = st.mTimeBoundsQueue ∧
    (st.storeStage abl n s).mTimeBoundsQueueCounter = st.mTimeBoundsQueueCounter ∧
    (st.storeStage abl n s).mCapacityFrames = st.mCapacityFrames ∧
    (st.storeStage abl n s).mFormat = st.mFormat := by
  simp only [CARingBuffer.storeStage]
  repeat' split
  all_goals exact ⟨rfl, rfl, rfl, rfl⟩

theorem gapZero_StartTime (st : CARingBuffer) (s : Int) :
    (st.gapZero s).StartTime = st.StartTime := by
  unfold CARingBuffer.StartTime
  rw [(gapZero_fields st s).1, (gapZero_fields st s).2.1]

theorem gapZero_EndTime (st : CARingBuffer) (s : Int) :
    (st.gapZero s).EndTime = st.EndTime := by
  unfold CARingBuffer.EndTime
  rw [(gapZero_fields st s).1, (gapZero_fields st s).2.1]

theorem gapZero_queueWF (st : CARingBuffer) (s : Int) (h : st.queueWF) :
    (st.gapZero s).queueWF := by
  unfold CARingBuffer.queueWF
  rw [(gapZero_fields st s).1, (gapZero_fields st s).2.1]
  exact h

theorem storeStage_StartTime (st : CARingBuffer) (abl : AudioBufferList) (n : Nat) (s : Int) :
    (st.storeStage abl n s).StartTime = st.StartTime := by
  unfold CARingBuffer.StartTime
  rw [(storeStage_fields st abl n s).1, (storeStage_fields st abl n s).2.1]

theorem storeStage_EndTime (st : CARingBuffer) (abl : AudioBufferList) (n : Nat) (s : Int) :
    (st.storeStage abl n s).EndTime = st.EndTime := by
  unfold CARingBuffer.EndTime
  rw [(storeStage_fields st abl n s).1, (storeStage_fields st abl n s).2.1]

theorem storeStage_queueWF (st : CARingBuffer) (abl : AudioBufferList) (n : Nat) (s : Int)
    (h : st.queueWF) : (st.storeStage abl n s).queueWF := by
  unfold CARingBuffer.queueWF
  rw [(storeStage_fields st abl n s).1, (storeStage_fields st abl n s).2.1]
  exact h

theorem boundsAdjust_fields (st : CARingBuffer) (n : Nat) (s : Int) :
    (st.boundsAdjust n s).mBuffers = st.mBuffers ∧
    (st.boundsAdjust n s).mCapacityFrames = st.mCapacityFrames ∧
    (st.boundsAdjust n s).mFormat = st.mFormat := by
  simp only [CARingBuffer.boundsAdjust, CARingBuffer.SetTimeBounds]
  repeat' split
  all_goals exact ⟨rfl, rfl, rfl⟩

theorem boundsAdjust_queueWF (st : CARingBuffer) (n : Nat) (s : Int) (h : st.queueWF) :
    (st.boundsAdjust n s).queueWF := by
  simp only [CARingBuffer.boundsAdjust]
  split
  · exact (SetTimeBounds_spec st _ _).1
  · split
    · exact h
    · exact (SetTimeBounds_spec st _ _).1

theorem Write_valid (st : CARingBuffer) (abl : AudioBufferList) (n : Nat) (s : Int)
    (hn : ¬ n = 0) (hv : ¬ (n > st.mCapacityFrames ∨ s < 0)) :
    st.Write abl n s =
      (true, ((((st.boundsAdjust n s).gapZero s).storeStage abl n s).SetTimeBounds
        (((st.boundsAdjust n s).gapZero s).storeStage abl n s).StartTime (s + (n : Int)))) := by
  simp only [CARingBuffer.Write, if_neg hn, if_neg hv]

theorem Write_bounds (st : CARingBuffer) (abl : AudioBufferList) (n : Nat) (s : Int)
    (hq : st.queueWF) (hn : ¬ n = 0) (hv : ¬ (n > st.mCapacityFrames ∨ s < 0)) :
    (st.Write abl n s).1 = true ∧
    (st.Write abl n s).2.queueWF ∧
    (st.Write abl n s).2.StartTime = (st.boundsAdjust n s).StartTime ∧
    (st.Write abl n s).2.EndTime = s + (n : Int) ∧
    (st.Write abl n s).2.mCapacityFrames = st.mCapacityFrames := by
  rw [Write_valid st abl n s hn hv]
  have hset := SetTimeBounds_spec (((st.boundsAdjust n s).gapZero s).storeStage abl n s)
    (((st.boundsAdjust n s).gapZero s).storeStage abl n s).StartTime (s + (n : Int))
  refine ⟨rfl, hset.1, ?_, hset.2.2.1, ?_⟩
  · rw [hset.2.1, storeStage_StartTime, gapZero_StartTime]
  · rw [hset.2.2.2.2.1, (storeStage_fields _ abl n s).2.2.1, (gapZero_fields _ s).2.2.1,
      (boundsAdjust_fields st n s).2.1]

theorem boundsAdjust_StartTime_char (st : CARingBuffer) (n : Nat) (s : Int) :
    (s < st.EndTime ∧ (st.boundsAdjust n s).StartTime = s) ∨
    (¬ s < st.EndTime ∧ s + (n : Int) - st.StartTime ≤ (st.mCapacityFrames : Int) ∧
      (st.boundsAdjust n s).StartTime = st.StartTime) ∨
    (¬ s < st.EndTime ∧ ¬ (s + (n : Int) - st.StartTime ≤ (st.mCapacityFrames : Int)) ∧
      (st.boundsAdjust n s).StartTime = s + (n : Int) - (st.mCapacityFrames : Int)) := by
  by_cases h1 : s < st.EndTime
  · left
    refine ⟨h1, ?_⟩
    simp only [CARingBuffer.boundsAdjust]
    rw [if_pos h1]
    exact (SetTimeBounds_spec st s s).2.1
  · by_cases h2 : s + (n : Int) - st.StartTime ≤ (st.mCapacityFrames : Int)
    · right; left
      refine ⟨h1, h2, ?_⟩
      simp only [CARingBuffer.boundsAdjust]
      rw [if_neg h1, if_pos h2]
    · right; right
      refine ⟨h1, h2, ?_⟩
      simp only [CARingBuffer.boundsAdjust]
      rw [if_neg h1, if_neg h2]
      exact (SetTimeBounds_spec st _ _).2.1

theorem Write_Inv (st : CARingBuffer) (abl : AudioBufferList) (n : Nat) (s : Int)
    (h : st.Inv) : ((st.Write abl n s).2).Inv ∧
      (st.Write abl n s).2.mCapacityFrames = st.mCapacityFrames := by
  obtain ⟨hq, hSE, hspan⟩ := h
  by_cases hn : n = 0
  · simp only [CARingBuffer.Write, if_pos hn]
    exact ⟨⟨hq, hSE, hspan⟩, by trivial⟩
  · by_cases hv : n > st.mCapacityFrames ∨ s < 0
    · simp only [CARingBuffer.Write, if_neg hn, if_pos hv]
      exact ⟨⟨hq, hSE, hspan⟩, by trivial⟩
    · have hw := Write_bounds st abl n s hq hn hv
      have hncap : n ≤ st.mCapacityFrames := by
        rcases Nat.lt_or_ge st.mCapacityFrames n with hlt | hge
        · exact absurd (Or.inl hlt) hv
        · exact hge
      have hncapZ : (n : Int) ≤ (st.mCapacityFrames : Int) := by exact_mod_cast hncap
      have hnn : (0 : Int) ≤ (n : Int) := Int.natCast_nonneg n
      refine ⟨⟨hw.2.1, ?_, ?_⟩, hw.2.2.2.2⟩
      · rw [hw.2.2.1, hw.2.2.2.1]
        rcases boundsAdjust_StartTime_char st n s with ⟨h1, hS⟩ | ⟨h1, h2, hS⟩ | ⟨h1, h2, hS⟩
        · rw [hS]; omega
        · rw [hS]; omega
        · rw [hS]
          have : (0 : Int) ≤ (st.mCapacityFrames : Int) := Int.natCast_nonneg _
          omega
      · rw [hw.2.2.1, hw.2.2.2.1, hw.2.2.2.2]
        rcases boundsAdjust_StartTime_char st n s with ⟨h1, hS⟩ | ⟨h1, h2, hS⟩ | ⟨h1, h2, hS⟩
        · rw [hS]; omega
        · rw [hS]; omega
        · rw [hS]; omega

theorem applyCARBWrites_Inv (ws : List (AudioBufferList × Nat × Int)) (st : CARingBuffer)
    (h : st.Inv) : (applyCARBWrites st ws).Inv := by
  induction ws generalizing st with
  | nil => exact h
  | cons w ws ih =>
    show (applyCARBWrites ((st.Write w.1 w.2.1 w.2.2).2) ws).Inv
    exact ih _ (Write_Inv st w.1 w.2.1 w.2.2 h).1

theorem Allocate_Inv (fmt : CAStreamBasicDescription) (cf : Nat) (st0 : CARingBuffer)
    (h0 : CARingBuffer.Allocate fmt cf = some st0) :
    st0.Inv ∧ st0.StartTime = 0 ∧ st0.EndTime = 0 := by
  unfold CARingBuffer.Allocate at h0
  split at h0
  · exact absurd h0 (by simp)
  · rw [Option.some.injEq] at h0
    subst h0
    refine ⟨⟨rfl, le_refl 0, ?_⟩, rfl, rfl⟩
    show (0 : Int) - 0 ≤ _
    simp

/-- C5: for every timestamped ring buffer whose published slot is consistent
and every Write with 0 < frameCount ≤ capacityFrames and
0 ≤ startTime < the currently published end time (a rewind), the bounds
adjustment stage collapses the published bounds to [startTime, startTime),
and after the Write completes GetTimeBounds reports exactly
[startTime, startTime + frameCount). -/
theorem C5_rewind_collapse (st : CARingBuffer) (abl : AudioBufferList) (n : Nat) (s : Int)
    (hq : st.queueWF) (hn : 0 < n) (hcap : n ≤ st.mCapacityFrames) (hs : 0 ≤ s)
    (hrew : s < st.EndTime) :
    (st.boundsAdjust n s).GetTimeBounds = some (s, s) ∧
    (st.Write abl n s).1 = true ∧
    ((st.Write abl n s).2).GetTimeBounds = some (s, s + (n : Int)) := by
  have hba : st.boundsAdjust n s = st.SetTimeBounds s s := by
    simp only [CARingBuffer.boundsAdjust]
    rw [if_pos hrew]
  have hset := SetTimeBounds_spec st s s
  have hn0 : ¬ n = 0 := by omega
  have hv : ¬ (n > st.mCapacityFrames ∨ s < 0) := by
    rintro (hcon | hcon) <;> omega
  have hw := Write_bounds st abl n s hq hn0 hv
  refine ⟨?_, hw.1, ?_⟩
  · rw [hba, GetTimeBounds_of_WF _ hset.1, hset.2.1, hset.2.2.1]
  · rw [GetTimeBounds_of_WF _ hw.2.1, hw.2.2.1, hw.2.2.2.1, hba, hset.2.1]

theorem C5_rewind_collapse_witness :
    ((CARingBuffer.boundsAdjust ⟨⟨32, 1, 1⟩, 4, 3, fun _ _ => 5,
        (fun i => if i = 0 then ⟨0, 3, 0⟩ else ⟨0, 0, 0⟩), 0⟩ 2 1).GetTimeBounds
      = some (1, 1)) ∧
    ((CARingBuffer.Write ⟨⟨32, 1, 1⟩, 4, 3, fun _ _ => 5,
        (fun i => if i = 0 then ⟨0, 3, 0⟩ else ⟨0, 0, 0⟩), 0⟩
        ⟨1, fun _ => ⟨2, fun _ => 9⟩⟩ 2 1).1 = true) ∧
    ((CARingBuffer.Write ⟨⟨32, 1, 1⟩, 4, 3, fun _ _ => 5,
        (fun i => if i = 0 then ⟨0, 3, 0⟩ else ⟨0, 0, 0⟩), 0⟩
        ⟨1, fun _ => ⟨2, fun _ => 9⟩⟩ 2 1).2).GetTimeBounds = some (1, 1 + ((2 : Nat) : Int)) :=
  C5_rewind_collapse ⟨⟨32, 1, 1⟩, 4, 3, fun _ _ => 5,
      (fun i => if i = 0 then ⟨0, 3, 0⟩ else ⟨0, 0, 0⟩), 0⟩
    ⟨1, fun _ => ⟨2, fun _ => 9⟩⟩ 2 1 (by rfl) (by decide) (by decide) (by decide) (by decide)

/-- C6: in every state reachable from a successful Allocate by any sequence
of Write calls, the published time bounds satisfy startTime ≤ endTime and
endTime - startTime ≤ capacityFrames, and the initial state publishes
startTime = endTime = 0. -/
theorem C6_time_bounds_invariant (fmt : CAStreamBasicDescription) (cf : Nat)
    (st0 : CARingBuffer) (h0 : CARingBuffer.Allocate fmt cf = some st0)
    (ws : List (AudioBufferList × Nat × Int)) :
    st0.GetTimeBounds = some (0, 0) ∧
    (applyCARBWrites st0 ws).GetTimeBounds
      = some ((applyCARBWrites st0 ws).StartTime, (applyCARBWrites st0 ws).EndTime) ∧
    (applyCARBWrites st0 ws).StartTime ≤ (applyCARBWrites st0 ws).EndTime ∧
    (applyCARBWrites st0 ws).EndTime - (applyCARBWrites st0 ws).StartTime
      ≤ ((applyCARBWrites st0 ws).mCapacityFrames : Int) := by
  obtain ⟨hInv0, hS0, hE0⟩ := Allocate_Inv fmt cf st0 h0
  have hInv := applyCARBWrites_Inv ws st0 hInv0
  refine ⟨?_, GetTimeBounds_of_WF _ hInv.1, hInv.2.1, hInv.2.2⟩
  rw [GetTimeBounds_of_WF _ hInv0.1, hS0, hE0]

theorem C6_time_bounds_invariant_witness :
    (CARingBuffer.GetTimeBounds ⟨⟨32, 1, 1⟩, 4, 3, fun _ _ => 0, fun _ => ⟨0, 0, 0⟩, 0⟩
      = some (0, 0)) ∧
    ((applyCARBWrites ⟨⟨32, 1, 1⟩, 4, 3, fun _ _ => 0, fun _ => ⟨0, 0, 0⟩, 0⟩
        [(⟨1, fun _ => ⟨3, fun p => p + 1⟩⟩, 3, 0), (⟨1, fun _ => ⟨3, fun p => p + 4⟩⟩, 3, 3)]
      ).StartTime ≤
      (applyCARBWrites ⟨⟨32, 1, 1⟩, 4, 3, fun _ _ => 0, fun _ => ⟨0, 0, 0⟩, 0⟩
        [(⟨1, fun _ => ⟨3, fun p => p + 1⟩⟩, 3, 0), (⟨1, fun _ => ⟨3, fun p => p + 4⟩⟩, 3, 3)]
      ).EndTime) := by
  have hall : CARingBuffer.Allocate ⟨32, 1, 1⟩ 4
      = some ⟨⟨32, 1, 1⟩, 4, 3, fun _ _ => 0, fun _ => ⟨0, 0, 0⟩, 0⟩ := by
    unfold CARingBuffer.Allocate
    rw [if_neg (by norm_num [CAStreamBasicDescription.IsInterleaved,
      kAudioFormatFlagIsNonInterleaved])]
    rw [NextPowerOfTwo_four]
  have h := C6_time_bounds_invariant ⟨32, 1, 1⟩ 4
    ⟨⟨32, 1, 1⟩, 4, 3, fun _ _ => 0, fun _ => ⟨0, 0, 0⟩, 0⟩ hall
    [(⟨1, fun _ => ⟨3, fun p => p + 1⟩⟩, 3, 0), (⟨1, fun _ => ⟨3, fun p => p + 4⟩⟩, 3, 3)]
  exact ⟨h.1, h.2.2.1⟩

theorem applyCARBWrites_queueWF (ws : List (AudioBufferList × Nat × Int)) (st : CARingBuffer)
    (h : st.queueWF) : (applyCARBWrites st ws).queueWF := by
  induction ws generalizing st with
  | nil => exact h
  | cons w ws ih =>
    show (applyCARBWrites ((st.Write w.1 w.2.1 w.2.2).2) ws).queueWF
    refine ih _ ?_
    by_cases hn : w.2.1 = 0
    · simp only [CARingBuffer.Write, if_pos hn]
      exact h
    · by_cases hv : w.2.1 > st.mCapacityFrames ∨ w.2.2 < 0
      · simp only [CARingBuffer.Write, if_neg hn, if_pos hv]
        exact h
      · exact (Write_bounds st w.1 w.2.1 w.2.2 h hn hv).2.1

/-- C10: in any sequential execution, after Allocate and any sequence of
Write calls the time bounds queue slot selected by the shared counter holds
an update counter equal to the shared counter, so GetTimeBounds succeeds
already on its first of the 8 attempts and returns exactly the most
recently published bounds. -/
theorem C10_get_time_bounds_first_attempt (fmt : CAStreamBasicDescription) (cf : Nat)
    (st0 : CARingBuffer) (h0 : CARingBuffer.Allocate fmt cf = some st0)
    (ws : List (AudioBufferList × Nat × Int)) :
    ((applyCARBWrites st0 ws).mTimeBoundsQueue
        ((applyCARBWrites st0 ws).mTimeBoundsQueueCounter &&& sTimeBoundsQueueMask)
      ).mUpdateCounter = (applyCARBWrites st0 ws).mTimeBoundsQueueCounter ∧
    (applyCARBWrites st0 ws).getTimeBoundsLoop 1
      = some ((applyCARBWrites st0 ws).StartTime, (applyCARBWrites st0 ws).EndTime) ∧
    (applyCARBWrites st0 ws).GetTimeBounds
      = some ((applyCARBWrites st0 ws).StartTime, (applyCARBWrites st0 ws).EndTime) := by
  have hq0 : st0.queueWF := (Allocate_Inv fmt cf st0 h0).1.1
  have hq := applyCARBWrites_queueWF ws st0 hq0
  exact ⟨hq, getTimeBoundsLoop_succ_of_WF _ hq 0, GetTimeBounds_of_WF _ hq⟩

theorem C10_get_time_bounds_first_attempt_witness :
    (applyCARBWrites ⟨⟨32, 1, 1⟩, 4, 3, fun _ _ => 0, fun _ => ⟨0, 0, 0⟩, 0⟩
        [(⟨1, fun _ => ⟨3, fun p => p + 1⟩⟩, 3, 0)]).getTimeBoundsLoop 1
      = some ((applyCARBWrites ⟨⟨32, 1, 1⟩, 4, 3, fun _ _ => 0, fun _ => ⟨0, 0, 0⟩, 0⟩
          [(⟨1, fun _ => ⟨3, fun p => p + 1⟩⟩, 3, 0)]).StartTime,
        (applyCARBWrites ⟨⟨32, 1, 1⟩, 4, 3, fun _ _ => 0, fun _ => ⟨0, 0, 0⟩, 0⟩
          [(⟨1, fun _ => ⟨3, fun p => p + 1⟩⟩, 3, 0)]).EndTime) := by
  have hall : CARingBuffer.Allocate ⟨32, 1, 1⟩ 4
      = some ⟨⟨32, 1, 1⟩, 4, 3, fun _ _ => 0, fun _ => ⟨0, 0, 0⟩, 0⟩ := by
    unfold CARingBuffer.Allocate
    rw [if_neg (by norm_num [CAStreamBasicDescription.IsInterleaved,
      kAudioFormatFlagIsNonInterleaved])]
    rw [NextPowerOfTwo_four]
  exact (C10_get_time_bounds_first_attempt ⟨32, 1, 1⟩ 4
    ⟨⟨32, 1, 1⟩, 4, 3, fun _ _ => 0, fun _ => ⟨0, 0, 0⟩, 0⟩ hall
    [(⟨1, fun _ => ⟨3, fun p => p + 1⟩⟩, 3, 0)]).2.1

theorem mul_mod_lemma (a cap bpf j : Nat) (hj : j < bpf) :
    (a * bpf + j) % (cap * bpf) = (a % cap) * bpf + j := by
  by_cases hc : cap = 0
  · subst hc
    simp
  · have hdm := Nat.div_add_mod a cap
    have h1 : a * bpf + j = ((a % cap) * bpf + j) + (a / cap) * (cap * bpf) := by
      calc a * bpf + j = (cap * (a / cap) + a % cap) * bpf + j := by rw [hdm]
        _ = ((a % cap) * bpf + j) + (a / cap) * (cap * bpf) := by ring
    rw [h1, Nat.add_mul_mod_self_right]
    refine Nat.mod_eq_of_lt ?_
    have hm : a % cap < cap := Nat.mod_lt _ (by omega)
    calc (a % cap) * bpf + j < (a % cap) * bpf + bpf := by omega
      _ = (a % cap + 1) * bpf := by ring
      _ ≤ cap * bpf := Nat.mul_le_mul_right _ (by omega)

theorem emod_toNat (t : Int) (cap : Nat) (ht : 0 ≤ t) :
    (t % (cap : Int)).toNat = t.toNat % cap := by
  obtain ⟨a, rfl⟩ := Int.eq_ofNat_of_zero_le ht
  rw [show ((a : Int) % (cap : Int)) = (((a % cap : Nat) : Int)) from by push_cast; ring]
  rfl

/-- C8: for every Write whose start time is strictly after the end time
current after the bounds adjustment, the gap zeroing stage (which runs
before the new frames are stored) zeroes, on every channel stream, every
physical storage frame at position t mod capacityFrames for every sample
time t in the skipped interval. -/
theorem C8_gap_zeroing (st : CARingBuffer) (n : Nat) (s : Int)
    (hcap0 : 0 < st.mCapacityFrames)
    (hE : 0 ≤ (st.boundsAdjust n s).EndTime)
    (hgap : (st.boundsAdjust n s).EndTime < s)
    (hspan : s - (st.boundsAdjust n s).EndTime ≤ (st.mCapacityFrames : Int)) :
    ∀ i, i < st.mFormat.ChannelStreamCount →
    ∀ t : Int, (st.boundsAdjust n s).EndTime ≤ t → t < s →
    ∀ j, j < st.mFormat.mBytesPerFrame →
    ((st.boundsAdjust n s).gapZero s).mBuffers i
      ((t.toNat * st.mFormat.mBytesPerFrame + j)
        % (st.mCapacityFrames * st.mFormat.mBytesPerFrame)) = 0 := by
  intro i hi t ht1 ht2 j hj
  have hc : (st.boundsAdjust n s).mCapacityFrames = st.mCapacityFrames :=
    (boundsAdjust_fields st n s).2.1
  have hf : (st.boundsAdjust n s).mFormat = st.mFormat :=
    (boundsAdjust_fields st n s).2.2
  have hfbE : (st.boundsAdjust n s).FrameByteOffset (st.boundsAdjust n s).EndTime
      = ((st.boundsAdjust n s).EndTime.toNat % st.mCapacityFrames)
        * st.mFormat.mBytesPerFrame := by
    unfold CARingBuffer.FrameByteOffset
    rw [hc, hf, emod_toNat _ _ hE]
  have hfbS : (st.boundsAdjust n s).FrameByteOffset s
      = (s.toNat % st.mCapacityFrames) * st.mFormat.mBytesPerFrame := by
    unfold CARingBuffer.FrameByteOffset
    rw [hc, hf, emod_toNat _ _ (by omega)]
  rw [mul_mod_lemma _ _ _ _ hj]
  have hA : (st.boundsAdjust n s).EndTime.toNat ≤ t.toNat := by omega
  have hT : t.toNat < s.toNat := by omega
  have hD : s.toNat - (st.boundsAdjust n s).EndTime.toNat ≤ st.mCapacityFrames := by omega
  have h1 : (st.boundsAdjust n s).EndTime.toNat % st.mCapacityFrames < st.mCapacityFrames :=
    Nat.mod_lt _ hcap0
  have h3 : t.toNat % st.mCapacityFrames < st.mCapacityFrames := Nat.mod_lt _ hcap0
  have e1 : t.toNat % st.mCapacityFrames
      = ((st.boundsAdjust n s).EndTime.toNat % st.mCapacityFrames
          + (t.toNat - (st.boundsAdjust n s).EndTime.toNat)) % st.mCapacityFrames := by
    conv_lhs => rw [show t.toNat = (st.boundsAdjust n s).EndTime.toNat
      + (t.toNat - (st.boundsAdjust n s).EndTime.toNat) from by omega]
    rw [Nat.mod_add_mod]
  have e2 : s.toNat % st.mCapacityFrames
      = ((st.boundsAdjust n s).EndTime.toNat % st.mCapacityFrames
          + (s.toNat - (st.boundsAdjust n s).EndTime.toNat)) % st.mCapacityFrames := by
    conv_lhs => rw [show s.toNat = (st.boundsAdjust n s).EndTime.toNat
      + (s.toNat - (st.boundsAdjust n s).EndTime.toNat) from by omega]
    rw [Nat.mod_add_mod]
  simp only [CARingBuffer.gapZero]
  rw [if_pos hgap, hfbE, hfbS, hf, hc]
  set A := (st.boundsAdjust n s).EndTime.toNat % st.mCapacityFrames with hAdef
  set d := t.toNat - (st.boundsAdjust n s).EndTime.toNat with hddef
  set D := s.toNat - (st.boundsAdjust n s).EndTime.toNat with hDdef
  have hdD : d < D := by omega
  have hmul_le : ∀ x y : Nat, x ≤ y →
      x * st.mFormat.mBytesPerFrame ≤ y * st.mFormat.mBytesPerFrame :=
    fun x y h => Nat.mul_le_mul_right _ h
  have hmul_succ : ∀ x : Nat, (x + 1) * st.mFormat.mBytesPerFrame
      = x * st.mFormat.mBytesPerFrame + st.mFormat.mBytesPerFrame := fun x => by ring
  split
  · rename_i hlt
    -- no wrap between the gap start and the write start
    have hAS : A < s.toNat % st.mCapacityFrames :=
      lt_of_mul_lt_mul_right hlt (Nat.zero_le _)
    have hADcap : A + D < st.mCapacityFrames := by
      by_contra hcon
      push_neg at hcon
      have e2c : s.toNat % st.mCapacityFrames = A + D - st.mCapacityFrames := by
        rw [e2, Nat.mod_eq_sub_mod (by omega), Nat.mod_eq_of_lt (by omega)]
      omega
    have e1b : t.toNat % st.mCapacityFrames = A + d := by
      rw [e1, Nat.mod_eq_of_lt (by omega)]
    have e2b : s.toNat % st.mCapacityFrames = A + D := by
      rw [e2, Nat.mod_eq_of_lt (by omega)]
    simp only [ZeroRange]
    rw [if_pos]
    refine ⟨hi, ?_, ?_⟩
    · rw [e1b]
      have := hmul_le A (A + d) (by omega)
      omega
    · rw [e1b, e2b]
      have p1 := hmul_le (A + d + 1) (A + D) (by omega)
      have p2 := hmul_succ (A + d)
      have p3 := hmul_le A (A + D) (by omega)
      omega
  · rename_i hge
    -- the zeroed range wraps at the end of the physical storage
    rcases Nat.lt_or_ge (A + d) st.mCapacityFrames with hcase | hcase
    · have e1b : t.toNat % st.mCapacityFrames = A + d := by
        rw [e1, Nat.mod_eq_of_lt (by omega)]
      simp only [ZeroRange]
      by_cases houter : A * st.mFormat.mBytesPerFrame
          ≤ t.toNat % st.mCapacityFrames * st.mFormat.mBytesPerFrame + j
      · rcases Nat.lt_or_ge (t.toNat % st.mCapacityFrames * st.mFormat.mBytesPerFrame + j)
            (s.toNat % st.mCapacityFrames * st.mFormat.mBytesPerFrame) with hin | hout
        · rw [if_pos ⟨hi, Nat.zero_le _, by omega⟩]
        · rw [if_neg (by rintro ⟨-, -, hx⟩; omega), if_pos]
          refine ⟨hi, houter, ?_⟩
          have p4 := hmul_le (A + d + 1) st.mCapacityFrames (by omega)
          have p5 := hmul_succ (A + d)
          have p6 := hmul_le A st.mCapacityFrames (by omega)
          rw [e1b]
          rw [e1b] at houter
          omega
      · exfalso
        apply houter
        rw [e1b]
        have := hmul_le A (A + d) (by omega)
        omega
    · have e1c : t.toNat % st.mCapacityFrames = A + d - st.mCapacityFrames := by
        rw [e1, Nat.mod_eq_sub_mod (by omega), Nat.mod_eq_of_lt (by omega)]
      have e2c : s.toNat % st.mCapacityFrames = A + D - st.mCapacityFrames := by
        rw [e2, Nat.mod_eq_sub_mod (by omega), Nat.mod_eq_of_lt (by omega)]
      simp only [ZeroRange]
      rw [if_pos]
      refine ⟨hi, Nat.zero_le _, ?_⟩
      rw [e1c, e2c]
      have p1 := hmul_le (A + d - st.mCapacityFrames + 1) (A + D - st.mCapacityFrames)
        (by omega)
      have p2 := hmul_succ (A + d - st.mCapacityFrames)
      omega

theorem C8_gap_zeroing_witness :
    ((CARingBuffer.gapZero (CARingBuffer.boundsAdjust
        ⟨⟨32, 1, 1⟩, 4, 3, fun _ _ => 7, fun _ => ⟨0, 0, 0⟩, 0⟩ 1 2) 2).mBuffers 0
      (((1 : Int).toNat * 1 + 0) % (4 * 1))) = 0 :=
  C8_gap_zeroing ⟨⟨32, 1, 1⟩, 4, 3, fun _ _ => 7, fun _ => ⟨0, 0, 0⟩, 0⟩ 1 2
    (by decide) (by decide) (by decide) (by decide) 0 (by decide) 1 (by decide) (by decide)
    0 (by decide)

/-- C1 counterexample: in the concrete scenario, after the bounds become
(2, 10), a Read of 4 frames at startRead 0 does not fill the entire output
with zeros and does not report 0 valid frames: the requested range [0, 4)
partially overlaps the valid range [2, 10), so the code clamps to [2, 4),
copies the two frames written for times 2 and 3, and reports 2 frames
(2 bytes) on the output channel. -/
theorem C1_concrete_scenario_counterexample :
    c1State2.GetTimeBounds = some (2, 10) ∧
    (c1State2.Read c1Out 4 0).1 = true ∧
    (((c1State2.Read c1Out 4 0).2).mBuffers 0).mData 2 = 12 ∧
    ¬ (((c1State2.Read c1Out 4 0).2).mBuffers 0).mData 2 = 0 ∧
    (((c1State2.Read c1Out 4 0).2).mBuffers 0).mDataByteSize = 2 ∧
    ¬ (((c1State2.Read c1Out 4 0).2).mBuffers 0).mDataByteSize = 0 := by
  decide

/-- C1 (amended): requesting 5 frames allocates 8; writing 4 frames at time
0 publishes bounds (0, 4); a further write of 6 frames at time 4 evicts the
two oldest frames and publishes (2, 10); a Read of 4 frames at startRead 0
zero-fills the first 2 frames, returns the frames written for times [2, 4)
and reports 2 valid frames on the output channel; a Read of 4 frames at
startRead 2 returns exactly the 4 frames written for times [2, 6) and
reports 4 valid frames. -/
theorem C1_concrete_scenario :
    CARingBuffer.Allocate c1Format 5 = some c1State0 ∧
    c1State0.mCapacityFrames = 8 ∧
    (c1State0.Write c1Abl1 4 0).1 = true ∧
    c1State1.GetTimeBounds = some (0, 4) ∧
    (c1State1.Write c1Abl2 6 4).1 = true ∧
    c1State2.GetTimeBounds = some (2, 10) ∧
    (c1State2.Read c1Out 4 0).1 = true ∧
    (((c1State2.Read c1Out 4 0).2).mBuffers 0).mDataByteSize = 2 ∧
    (((c1State2.Read c1Out 4 0).2).mBuffers 0).mData 0 = 0 ∧
    (((c1State2.Read c1Out 4 0).2).mBuffers 0).mData 1 = 0 ∧
    (((c1State2.Read c1Out 4 0).2).mBuffers 0).mData 2 = 12 ∧
    (((c1State2.Read c1Out 4 0).2).mBuffers 0).mData 3 = 13 ∧
    (c1State2.Read c1Out 4 2).1 = true ∧
    (((c1State2.Read c1Out 4 2).2).mBuffers 0).mDataByteSize = 4 ∧
    (((c1State2.Read c1Out 4 2).2).mBuffers 0).mData 0 = 12 ∧
    (((c1State2.Read c1Out 4 2).2).mBuffers 0).mData 1 = 13 ∧
    (((c1State2.Read c1Out 4 2).2).mBuffers 0).mData 2 = 14 ∧
    (((c1State2.Read c1Out 4 2).2).mBuffers 0).mData 3 = 15 := by
  refine ⟨?_, by decide⟩
  unfold CARingBuffer.Allocate
  rw [if_neg (by norm_num [CAStreamBasicDescription.IsInterleaved, c1Format,
    kAudioFormatFlagIsNonInterleaved])]
  rw [NextPowerOfTwo_five]
  rfl

theorem ZeroABL_numBuffers (abl : AudioBufferList) (o c : Nat) :
    (ZeroABL abl o c).mNumberBuffers = abl.mNumberBuffers := rfl

theorem ZeroABL_size (abl : AudioBufferList) (o c i : Nat) :
    ((ZeroABL abl o c).mBuffers i).mDataByteSize = (abl.mBuffers i).mDataByteSize := by
  unfold ZeroABL
  dsimp only
  split <;> rfl

theorem ZeroABL_data (abl : AudioBufferList) (o c i p : Nat) :
    ((ZeroABL abl o c).mBuffers i).mData p =
      if i < abl.mNumberBuffers ∧ o ≤ p ∧
          p < o + min c (u32sub (abl.mBuffers i).mDataByteSize o) then 0
      else (abl.mBuffers i).mData p := by
  unfold ZeroABL
  dsimp only
  by_cases hi : i < abl.mNumberBuffers
  · rw [if_pos hi]
    dsimp only
    by_cases hc : o ≤ p ∧ p < o + min c (u32sub (abl.mBuffers i).mDataByteSize o)
    · rw [if_pos hc, if_pos ⟨hi, hc.1, hc.2⟩]
    · rw [if_neg hc, if_neg (by tauto)]
  · rw [if_neg hi, if_neg (by tauto)]

theorem toNat_max_mul (x : Int) (b : Nat) (hx : 0 ≤ x) :
    (max 0 (x * (b : Int))).toNat = x.toNat * b := by
  obtain ⟨m, rfl⟩ := Int.eq_ofNat_of_zero_le hx
  rw [show ((m : Int)) * ((b : Int)) = (((m * b : Nat)) : Int) from by push_cast; ring]
  rw [max_eq_right (Int.ofNat_nonneg _)]
  rfl

theorem mod_mul_shift (a q cap bpf : Nat) :
    (a * bpf + q) % (cap * bpf) = ((a % cap) * bpf + q) % (cap * bpf) := by
  conv_lhs => rw [← Nat.div_add_mod a cap]
  rw [show (cap * (a / cap) + a % cap) * bpf + q
        = ((a % cap) * bpf + q) + (a / cap) * (cap * bpf) from by ring,
    Nat.add_mul_mod_self_right]

theorem caRead_clamp_of_WF (st : CARingBuffer) (hq : st.queueWF) (a b : Int) :
    st.ClampTimesToBounds a b =
      if a > st.EndTime ∨ b < st.StartTime then some (a, a)
      else some (max a st.StartTime, max (min b st.EndTime) (max a st.StartTime)) := by
  unfold CARingBuffer.ClampTimesToBounds
  rw [GetTimeBounds_of_WF st hq]

theorem caRead_zero_of_no_overlap (st : CARingBuffer) (abl : AudioBufferList) (n : Nat)
    (startRead : Int) (hq : st.queueWF) (hn0 : 0 < n) (hncap : n ≤ st.mCapacityFrames)
    (hsr : 0 ≤ startRead)
    (hsz : ∀ i, i < abl.mNumberBuffers →
      n * st.mFormat.mBytesPerFrame ≤ (abl.mBuffers i).mDataByteSize ∧
      (abl.mBuffers i).mDataByteSize < U32)
    (hA : min (startRead + (n : Int)) st.EndTime ≤ max startRead st.StartTime) :
    (st.Read abl n startRead).1 = true ∧
    ∀ i, i < abl.mNumberBuffers → ∀ q, q < n * st.mFormat.mBytesPerFrame →
      (((st.Read abl n startRead).2).mBuffers i).mData q = 0 := by
  have hread : st.Read abl n startRead
      = (true, ZeroABL abl 0 (n * st.mFormat.mBytesPerFrame)) := by
    by_cases hearly : startRead > st.EndTime ∨ startRead + (n : Int) < st.StartTime
    · simp only [CARingBuffer.Read]
      rw [if_neg (by omega : ¬ n = 0), if_neg (by push_neg; exact ⟨by omega, hsr⟩),
        caRead_clamp_of_WF st hq, if_pos hearly]
      dsimp only
      rw [if_pos rfl]
    · simp only [CARingBuffer.Read]
      rw [if_neg (by omega : ¬ n = 0), if_neg (by push_neg; exact ⟨by omega, hsr⟩),
        caRead_clamp_of_WF st hq, if_neg hearly]
      have hMM : max (min (startRead + (n : Int)) st.EndTime) (max startRead st.StartTime)
          = max startRead st.StartTime := max_eq_right hA
      rw [hMM]
      dsimp only
      rw [if_pos rfl]
  refine ⟨by rw [hread], ?_⟩
  intro i hi q hq'
  obtain ⟨hsz1, hsz2⟩ := hsz i hi
  have e0 : u32sub (abl.mBuffers i).mDataByteSize 0 = (abl.mBuffers i).mDataByteSize := by
    rw [u32sub_small _ _ (Nat.zero_le _) hsz2, Nat.sub_zero]
  rw [hread]
  rw [ZeroABL_data, if_pos ⟨hi, Nat.zero_le _, by rw [e0]; omega⟩]

set_option maxHeartbeats 1000000 in
theorem caRead_overlap (st : CARingBuffer) (abl : AudioBufferList) (n : Nat)
    (startRead : Int) (hq : st.queueWF) (hn0 : 0 < n) (hncap : n ≤ st.mCapacityFrames)
    (hsr : 0 ≤ startRead) (hbpf : 0 < st.mFormat.mBytesPerFrame)
    (hsz : ∀ i, i < abl.mNumberBuffers →
      n * st.mFormat.mBytesPerFrame ≤ (abl.mBuffers i).mDataByteSize ∧
      (abl.mBuffers i).mDataByteSize < U32)
    (hB : max startRead st.StartTime < min (startRead + (n : Int)) st.EndTime) :
    (st.Read abl n startRead).1 = true ∧
    ((st.Read abl n startRead).2).mNumberBuffers = abl.mNumberBuffers ∧
    ∀ i, i < abl.mNumberBuffers →
      ((((st.Read abl n startRead).2).mBuffers i).mDataByteSize
        = (min (startRead + (n : Int)) st.EndTime - max startRead st.StartTime).toNat
            * st.mFormat.mBytesPerFrame) ∧
      (∀ q, q < (max startRead st.StartTime - startRead).toNat * st.mFormat.mBytesPerFrame →
        (((st.Read abl n startRead).2).mBuffers i).mData q = 0) ∧
      (∀ q, q < (min (startRead + (n : Int)) st.EndTime - max startRead st.StartTime).toNat
              * st.mFormat.mBytesPerFrame →
        (((st.Read abl n startRead).2).mBuffers i).mData
            ((max startRead st.StartTime - startRead).toNat * st.mFormat.mBytesPerFrame + q)
          = st.mBuffers i
              (((max startRead st.StartTime).toNat * st.mFormat.mBytesPerFrame + q)
                % (st.mCapacityFrames * st.mFormat.mBytesPerFrame))) ∧
      (∀ q, (max startRead st.StartTime - startRead).toNat * st.mFormat.mBytesPerFrame
            + (min (startRead + (n : Int)) st.EndTime - max startRead st.StartTime).toNat
                * st.mFormat.mBytesPerFrame ≤ q →
        q < n * st.mFormat.mBytesPerFrame →
        (((st.Read abl n startRead).2).mBuffers i).mData q = 0) := by
  have hM0 : (0 : Int) ≤ max startRead st.StartTime := by omega
  have hI0 : (0 : Int) ≤ min (startRead + (n : Int)) st.EndTime := by omega
  have hMI : ¬(max startRead st.StartTime = min (startRead + (n : Int)) st.EndTime) := by omega
  have hearly : ¬(startRead > st.EndTime ∨ startRead + (n : Int) < st.StartTime) := by
    push_neg
    constructor <;> omega
  have hmaxI : max (min (startRead + (n : Int)) st.EndTime) (max startRead st.StartTime)
      = min (startRead + (n : Int)) st.EndTime := max_eq_left (le_of_lt hB)
  have hds := toNat_max_mul (max startRead st.StartTime - startRead)
    st.mFormat.mBytesPerFrame (by omega)
  have hdemax : max (0 : Int)
      (startRead + (n : Int) - min (startRead + (n : Int)) st.EndTime)
      = startRead + (n : Int) - min (startRead + (n : Int)) st.EndTime := by omega
  have hof0 : st.FrameByteOffset (max startRead st.StartTime)
      = ((max startRead st.StartTime).toNat % st.mCapacityFrames)
        * st.mFormat.mBytesPerFrame := by
    unfold CARingBuffer.FrameByteOffset
    rw [emod_toNat _ _ hM0]
  have hof1 : st.FrameByteOffset (min (startRead + (n : Int)) st.EndTime)
      = (((max startRead st.StartTime).toNat
            + (min (startRead + (n : Int)) st.EndTime - max startRead st.StartTime).toNat)
          % st.mCapacityFrames) * st.mFormat.mBytesPerFrame := by
    unfold CARingBuffer.FrameByteOffset
    rw [emod_toNat _ _ hI0]
    exact congrArg (fun x => x % st.mCapacityFrames * st.mFormat.mBytesPerFrame) (by omega)
  simp only [CARingBuffer.Read]
  rw [if_neg (by omega : ¬ n = 0), if_neg (by push_neg; exact ⟨by omega, hsr⟩),
    caRead_clamp_of_WF st hq, if_neg hearly, hmaxI]
  dsimp only
  rw [if_neg hMI, hds, hdemax, hof0, hof1]
  have hcap0 : 0 < st.mCapacityFrames := by omega
  have hd0' : 0 < (min (startRead + (n : Int)) st.EndTime - max startRead st.StartTime).toNat :=
    by omega
  have hsum' : (max startRead st.StartTime - startRead).toNat
      + (min (startRead + (n : Int)) st.EndTime - max startRead st.StartTime).toNat
      + (startRead + (n : Int) - min (startRead + (n : Int)) st.EndTime).toNat = n := by omega
  have hdcap' : (min (startRead + (n : Int)) st.EndTime - max startRead st.StartTime).toNat
      ≤ st.mCapacityFrames := by omega
  generalize hga : (max startRead st.StartTime).toNat = a
  generalize hgd :
    (min (startRead + (n : Int)) st.EndTime - max startRead st.StartTime).toNat = d
  rw [hgd] at hsum' hdcap' hd0'
  generalize hgu : (max startRead st.StartTime - startRead).toNat = u
  rw [hgu] at hsum'
  generalize hgv : (startRead + (n : Int) - min (startRead + (n : Int)) st.EndTime).toNat = v
  rw [hgv] at hsum'
  generalize hgbpf : st.mFormat.mBytesPerFrame = bpf
  rw [hgbpf] at hbpf hsz
  generalize hgcap : st.mCapacityFrames = cap
  rw [hgcap] at hncap hdcap' hcap0
  have pb1 : u * bpf + d * bpf + v * bpf = n * bpf := by
    rw [← Nat.add_mul, ← Nat.add_mul, hsum']
  have hvsplit : 0 < v ∨ v * bpf = 0 := by
    rcases Nat.eq_zero_or_pos v with h | h
    · right
      rw [h, Nat.zero_mul]
    · left
      exact h
  have pb2 : (a % cap) * bpf + bpf ≤ cap * bpf := by
    have h := Nat.mul_le_mul_right bpf (show a % cap + 1 ≤ cap by
      have := Nat.mod_lt a hcap0
      omega)
    rw [Nat.add_mul, one_mul] at h
    exact h
  have pb3 : d * bpf ≤ cap * bpf := Nat.mul_le_mul_right _ hdcap'
  rcases Nat.lt_or_ge (a % cap + d) cap with hlt | hge
  · -- the clamped region does not wrap in physical storage
    have hmod : (a + d) % cap = a % cap + d := by
      rw [← Nat.mod_add_mod, Nat.mod_eq_of_lt hlt]
    rw [hmod]
    have pnw2 : (a % cap + d) * bpf = (a % cap) * bpf + d * bpf := Nat.add_mul _ _ _
    have pnwle : (a % cap + d) * bpf ≤ cap * bpf := Nat.mul_le_mul_right _ (by omega)
    have pnw : (a % cap) * bpf < (a % cap + d) * bpf := by
      have h := Nat.mul_le_mul_right bpf (show a % cap + 1 ≤ a % cap + d by omega)
      rw [Nat.add_mul, one_mul] at h
      omega
    rw [if_pos pnw]
    dsimp only
    refine ⟨rfl, ?_, ?_⟩
    · simp only [FetchABL_numBuffers, apply_ite AudioBufferList.mNumberBuffers,
        ZeroABL_numBuffers, ite_self]
    intro i hi
    obtain ⟨hsz1, hsz2⟩ := hsz i hi
    have e0 : u32sub (abl.mBuffers i).mDataByteSize 0 = (abl.mBuffers i).mDataByteSize := by
      rw [u32sub_small _ _ (Nat.zero_le _) hsz2, Nat.sub_zero]
    have eU : u32sub (abl.mBuffers i).mDataByteSize (u * bpf)
        = (abl.mBuffers i).mDataByteSize - u * bpf := u32sub_small _ _ (by omega) hsz2
    have eUD : u32sub (abl.mBuffers i).mDataByteSize (u * bpf + d * bpf)
        = (abl.mBuffers i).mDataByteSize - (u * bpf + d * bpf) :=
      u32sub_small _ _ (by omega) hsz2
    refine ⟨?_, ?_, ?_, ?_⟩
    · simp only [FetchABL_numBuffers, apply_ite AudioBufferList.mNumberBuffers,
        ZeroABL_numBuffers, ite_self]
      rw [if_pos hi]
      dsimp only
      omega
    · intro q hq'
      simp only [FetchABL_numBuffers, apply_ite AudioBufferList.mNumberBuffers,
        ZeroABL_numBuffers, ite_self]
      rw [if_pos hi]
      dsimp only
      simp only [FetchABL_data, FetchABL_size, FetchABL_numBuffers, ZeroABL_data,
        ZeroABL_size, ZeroABL_numBuffers, apply_ite AudioBufferList.mBuffers,
        apply_ite AudioBufferList.mNumberBuffers,
        apply_ite AudioBuffer.mDataByteSize, apply_ite AudioBuffer.mData, ite_apply,
        ite_self, e0, eU, eUD]
      repeat' split
      all_goals first | rfl | (exfalso; omega)
    · intro q hq'
      simp only [FetchABL_numBuffers, apply_ite AudioBufferList.mNumberBuffers,
        ZeroABL_numBuffers, ite_self]
      rw [if_pos hi]
      dsimp only
      rw [mod_mul_shift, Nat.mod_eq_of_lt (show (a % cap) * bpf + q < cap * bpf by omega)]
      simp only [FetchABL_data, FetchABL_size, FetchABL_numBuffers, ZeroABL_data,
        ZeroABL_size, ZeroABL_numBuffers, apply_ite AudioBufferList.mBuffers,
        apply_ite AudioBufferList.mNumberBuffers,
        apply_ite AudioBuffer.mDataByteSize, apply_ite AudioBuffer.mData, ite_apply,
        ite_self, e0, eU, eUD]
      repeat' split
      all_goals first | exact congrArg _ (by omega) | (exfalso; omega)
    · intro q hq2 hq3
      rcases hvsplit with hv | hv0
      · simp only [FetchABL_numBuffers, apply_ite AudioBufferList.mNumberBuffers,
          ZeroABL_numBuffers, ite_self]
        rw [if_pos hi]
        dsimp only
        simp only [FetchABL_data, FetchABL_size, FetchABL_numBuffers, ZeroABL_data,
          ZeroABL_size, ZeroABL_numBuffers, apply_ite AudioBufferList.mBuffers,
          apply_ite AudioBufferList.mNumberBuffers,
          apply_ite AudioBuffer.mDataByteSize, apply_ite AudioBuffer.mData, ite_apply,
          ite_self, e0, eU, eUD]
        repeat' split
        all_goals first | rfl | (exfalso; omega)
      · exfalso
        omega
  · -- the clamped region wraps around the end of physical storage
    have hmod : (a + d) % cap = a % cap + d - cap := by
      rw [← Nat.mod_add_mod, Nat.mod_eq_sub_mod hge, Nat.mod_eq_of_lt (by
        have := Nat.mod_lt a hcap0
        omega)]
    rw [hmod]
    have pw2 : (a % cap + d - cap) * bpf = (a % cap) * bpf + d * bpf - cap * bpf := by
      rw [Nat.sub_mul, Nat.add_mul]
    have pw1 : cap * bpf ≤ (a % cap) * bpf + d * bpf := by
      have h := Nat.mul_le_mul_right bpf hge
      rw [Nat.add_mul] at h
      exact h
    have pwle : (a % cap + d - cap) * bpf ≤ (a % cap) * bpf :=
      Nat.mul_le_mul_right _ (by
        have := Nat.mod_lt a hcap0
        omega)
    rw [if_neg (show ¬ (a % cap) * bpf < (a % cap + d - cap) * bpf by omega)]
    dsimp only
    refine ⟨rfl, ?_, ?_⟩
    · simp only [FetchABL_numBuffers, apply_ite AudioBufferList.mNumberBuffers,
        ZeroABL_numBuffers, ite_self]
    intro i hi
    obtain ⟨hsz1, hsz2⟩ := hsz i hi
    have e0 : u32sub (abl.mBuffers i).mDataByteSize 0 = (abl.mBuffers i).mDataByteSize := by
      rw [u32sub_small _ _ (Nat.zero_le _) hsz2, Nat.sub_zero]
    have eU : u32sub (abl.mBuffers i).mDataByteSize (u * bpf)
        = (abl.mBuffers i).mDataByteSize - u * bpf := u32sub_small _ _ (by omega) hsz2
    have eUD : u32sub (abl.mBuffers i).mDataByteSize (u * bpf + d * bpf)
        = (abl.mBuffers i).mDataByteSize - (u * bpf + d * bpf) :=
      u32sub_small _ _ (by omega) hsz2
    have eUC : u32sub (abl.mBuffers i).mDataByteSize
          (u * bpf + (cap * bpf - (a % cap) * bpf))
        = (abl.mBuffers i).mDataByteSize - (u * bpf + (cap * bpf - (a % cap) * bpf)) :=
      u32sub_small _ _ (by omega) hsz2
    refine ⟨?_, ?_, ?_, ?_⟩
    · simp only [FetchABL_numBuffers, apply_ite AudioBufferList.mNumberBuffers,
        ZeroABL_numBuffers, ite_self]
      rw [if_pos hi]
      dsimp only
      omega
    · intro q hq'
      simp only [FetchABL_numBuffers, apply_ite AudioBufferList.mNumberBuffers,
        ZeroABL_numBuffers, ite_self]
      rw [if_pos hi]
      dsimp only
      simp only [FetchABL_data, FetchABL_size, FetchABL_numBuffers, ZeroABL_data,
        ZeroABL_size, ZeroABL_numBuffers, apply_ite AudioBufferList.mBuffers,
        apply_ite AudioBufferList.mNumberBuffers,
        apply_ite AudioBuffer.mDataByteSize, apply_ite AudioBuffer.mData, ite_apply,
        ite_self, e0, eU, eUD, eUC]
      repeat' split
      all_goals first | rfl | (exfalso; omega)
    · intro q hq'
      simp only [FetchABL_numBuffers, apply_ite AudioBufferList.mNumberBuffers,
        ZeroABL_numBuffers, ite_self]
      rw [if_pos hi]
      dsimp only
      rw [mod_mul_shift]
      rcases Nat.lt_or_ge q (cap * bpf - (a % cap) * bpf) with hq1 | hq1
      · rw [Nat.mod_eq_of_lt (show (a % cap) * bpf + q < cap * bpf by omega)]
        simp only [FetchABL_data, FetchABL_size, FetchABL_numBuffers, ZeroABL_data,
          ZeroABL_size, ZeroABL_numBuffers, apply_ite AudioBufferList.mBuffers,
          apply_ite AudioBufferList.mNumberBuffers,
          apply_ite AudioBuffer.mDataByteSize, apply_ite AudioBuffer.mData, ite_apply,
          ite_self, e0, eU, eUD, eUC]
        repeat' split
        all_goals first | exact congrArg _ (by omega) | (exfalso; omega)
      · rw [Nat.mod_eq_sub_mod (show cap * bpf ≤ (a % cap) * bpf + q by omega),
          Nat.mod_eq_of_lt (show (a % cap) * bpf + q - cap * bpf < cap * bpf by omega)]
        simp only [FetchABL_data, FetchABL_size, FetchABL_numBuffers, ZeroABL_data,
          ZeroABL_size, ZeroABL_numBuffers, apply_ite AudioBufferList.mBuffers,
          apply_ite AudioBufferList.mNumberBuffers,
          apply_ite AudioBuffer.mDataByteSize, apply_ite AudioBuffer.mData, ite_apply,
          ite_self, e0, eU, eUD, eUC]
        repeat' split
        all_goals first | exact congrArg _ (by omega) | (exfalso; omega)
    · intro q hq2 hq3
      rcases hvsplit with hv | hv0
      · simp only [FetchABL_numBuffers, apply_ite AudioBufferList.mNumberBuffers,
          ZeroABL_numBuffers, ite_self]
        rw [if_pos hi]
        dsimp only
        simp only [FetchABL_data, FetchABL_size, FetchABL_numBuffers, ZeroABL_data,
          ZeroABL_size, ZeroABL_numBuffers, apply_ite AudioBufferList.mBuffers,
          apply_ite AudioBufferList.mNumberBuffers,
          apply_ite AudioBuffer.mDataByteSize, apply_ite AudioBuffer.mData, ite_apply,
          ite_self, e0, eU, eUD, eUC]
        repeat' split
        all_goals first | rfl | (exfalso; omega)
      · exfalso
        omega

/-- C4: for every CARingBuffer state with published bounds and every Read of
0 < frameCount ≤ capacityFrames frames at startRead ≥ 0 into sufficiently
large output buffers: when the requested range does not intersect the
published range the call returns true and the entire output (frameCount ·
bytesPerFrame bytes per channel) is zero-filled; when it overlaps, the call
returns true, the output before the clamped start is zero-filled, the
clamped sub-range is copied from physical storage (frame time mod capacity),
the output after the clamped end up to the requested length is zero-filled,
and every output channel's reported byte size is the overlap length in
bytes, not the requested length. -/
theorem C4_timestamped_clamp (st : CARingBuffer) (abl : AudioBufferList) (n : Nat)
    (startRead : Int) (hq : st.queueWF) (hn0 : 0 < n) (hncap : n ≤ st.mCapacityFrames)
    (hsr : 0 ≤ startRead) (hbpf : 0 < st.mFormat.mBytesPerFrame)
    (hsz : ∀ i, i < abl.mNumberBuffers →
      n * st.mFormat.mBytesPerFrame ≤ (abl.mBuffers i).mDataByteSize ∧
      (abl.mBuffers i).mDataByteSize < U32) :
    (min (startRead + (n : Int)) st.EndTime ≤ max startRead st.StartTime →
      (st.Read abl n startRead).1 = true ∧
      ∀ i, i < abl.mNumberBuffers → ∀ q, q < n * st.mFormat.mBytesPerFrame →
        (((st.Read abl n startRead).2).mBuffers i).mData q = 0) ∧
    (max startRead st.StartTime < min (startRead + (n : Int)) st.EndTime →
      (st.Read abl n startRead).1 = true ∧
      ((st.Read abl n startRead).2).mNumberBuffers = abl.mNumberBuffers ∧
      ∀ i, i < abl.mNumberBuffers →
        ((((st.Read abl n startRead).2).mBuffers i).mDataByteSize
          = (min (startRead + (n : Int)) st.EndTime - max startRead st.StartTime).toNat
              * st.mFormat.mBytesPerFrame) ∧
        (∀ q, q < (max startRead st.StartTime - startRead).toNat
                * st.mFormat.mBytesPerFrame →
          (((st.Read abl n startRead).2).mBuffers i).mData q = 0) ∧
        (∀ q, q < (min (startRead + (n : Int)) st.EndTime
                - max startRead st.StartTime).toNat * st.mFormat.mBytesPerFrame →
          (((st.Read abl n startRead).2).mBuffers i).mData
              ((max startRead st.StartTime - startRead).toNat
                * st.mFormat.mBytesPerFrame + q)
            = st.mBuffers i
                (((max startRead st.StartTime).toNat * st.mFormat.mBytesPerFrame + q)
                  % (st.mCapacityFrames * st.mFormat.mBytesPerFrame))) ∧
        (∀ q, (max startRead st.StartTime - startRead).toNat * st.mFormat.mBytesPerFrame
              + (min (startRead + (n : Int)) st.EndTime
                  - max startRead st.StartTime).toNat * st.mFormat.mBytesPerFrame ≤ q →
          q < n * st.mFormat.mBytesPerFrame →
          (((st.Read abl n startRead).2).mBuffers i).mData q = 0)) :=
  ⟨fun hA => caRead_zero_of_no_overlap st abl n startRead hq hn0 hncap hsr hsz hA,
   fun hOv => caRead_overlap st abl n startRead hq hn0 hncap hsr hbpf hsz hOv⟩

/-- C4 witness: a concrete overlapping read succeeds. -/
theorem C4_timestamped_clamp_witness :
    (CARingBuffer.Read
      ⟨⟨32, 1, 1⟩, 4, 3, (fun _ p => p + 50),
        (fun j => if j = 0 then ⟨1, 6, 0⟩ else ⟨0, 0, 0⟩), 0⟩
      ⟨1, fun _ => ⟨3, fun _ => 99⟩⟩ 3 0).1 = true :=
  ((C4_timestamped_clamp
      ⟨⟨32, 1, 1⟩, 4, 3, (fun _ p => p + 50),
        (fun j => if j = 0 then ⟨1, 6, 0⟩ else ⟨0, 0, 0⟩), 0⟩
      ⟨1, fun _ => ⟨3, fun _ => 99⟩⟩ 3 0 (by rfl) (by decide) (by decide) (by decide)
      (by decide) (fun i _ => ⟨by norm_num, by norm_num [U32]⟩)).2 (by decide)).1
